import Mathlib

/-!
Verification development for the ColorMeanApp repository.

The embedding follows the source files:
* `Converter.py` (class `ColorConverter`): hex string and RGB parsing and
  formatting, plus the scikit-image based conversions between sRGB and
  CIE L*a*b* (modelled over the real numbers).
* `Cluster.py` (class `ColorClusterer`): pooling of L*a*b* points, k-means
  clustering (the external `sklearn.cluster.KMeans` call is a parameter of
  the embedding, constrained by the guarantees the library provides),
  first-occurrence ordering of centroids and the text serialization.
* `App.py` (`ColorPlotApp.on_recluster`): the single-entry re-clustering
  update of an already computed cluster result.

Python `dict`s (insertion ordered, unique keys) are modelled as association
lists; Python `float` is modelled as a real number; a Python function that
can raise is modelled with `Option`.
-/

/-- A CIE L*a*b* triple, the Python `[L, a, b]` list of floats. -/
abbrev Lab : Type := ℝ × ℝ × ℝ

/-! ### Python `int(s, 16)` parsing

`ColorConverter.hex_to_rgb` calls `int(hex_color[i:i+2], 16)` on each
two-character slice.  Python's `int` with an explicit base accepts optional
surrounding whitespace, an optional sign, an optional `0x`/`0X` base marker
(optionally followed by one underscore), and then hexadecimal digits with
single underscores allowed between digits.  We model that grammar over the
ASCII character set (Python additionally accepts exotic Unicode whitespace
and digits, which never appear in this application's data). -/

/-- ASCII characters Python's `str.strip` removes around an `int` literal. -/
def isPySpace (c : Char) : Bool :=
  c == ' ' || c == '\t' || c == '\n' || c == '\r' || c == '\x0b' || c == '\x0c'

/-- Value of one hexadecimal digit, `none` for any other character. -/
def hexDigitVal? (c : Char) : Option ℕ :=
  if '0' ≤ c ∧ c ≤ '9' then some (c.toNat - '0'.toNat)
  else if 'a' ≤ c ∧ c ≤ 'f' then some (c.toNat - 'a'.toNat + 10)
  else if 'A' ≤ c ∧ c ≤ 'F' then some (c.toNat - 'A'.toNat + 10)
  else none

/-- Digits after the first one: underscores may appear, but only singly and
only between digits. -/
def hexDigitsRest : List Char → Option (List ℕ)
  | [] => some []
  | c :: cs =>
    if c = '_' then
      match cs with
      | [] => none
      | c2 :: cs2 =>
        match hexDigitVal? c2, hexDigitsRest cs2 with
        | some d, some ds => some (d :: ds)
        | _, _ => none
    else
      match hexDigitVal? c, hexDigitsRest cs with
      | some d, some ds => some (d :: ds)
      | _, _ => none

/-- A nonempty run of hexadecimal digits (with legal underscores). -/
def parseHexDigits : List Char → Option (List ℕ)
  | [] => none
  | c :: cs =>
    match hexDigitVal? c, hexDigitsRest cs with
    | some d, some ds => some (d :: ds)
    | _, _ => none

/-- Digits, allowing a leading `0x`/`0X` base marker (an underscore may
directly follow the marker). -/
def afterBaseMarker : List Char → Option (List ℕ)
  | c0 :: x :: rest =>
    if c0 = '0' ∧ (x = 'x' ∨ x = 'X') then
      match rest with
      | [] => parseHexDigits []
      | r :: rest2 => if r = '_' then parseHexDigits rest2 else parseHexDigits (r :: rest2)
    else parseHexDigits (c0 :: x :: rest)
  | cs => parseHexDigits cs

/-- Strip leading and trailing whitespace. -/
def pyStrip (cs : List Char) : List Char :=
  ((cs.dropWhile isPySpace).reverse.dropWhile isPySpace).reverse

/-- Numeric value of a digit list, most significant first. -/
def hexDigitsVal (ds : List ℕ) : ℕ :=
  ds.foldl (fun a d => 16 * a + d) 0

/-- Sign handling and value assembly of `int(s, 16)` on the stripped
string. -/
def pyIntHexCore : List Char → Option ℤ
  | [] => (afterBaseMarker []).map (fun ds => (hexDigitsVal ds : ℤ))
  | c :: rest =>
    if c = '+' then (afterBaseMarker rest).map (fun ds => (hexDigitsVal ds : ℤ))
    else if c = '-' then (afterBaseMarker rest).map (fun ds => -(hexDigitsVal ds : ℤ))
    else (afterBaseMarker (c :: rest)).map (fun ds => (hexDigitsVal ds : ℤ))

/-- Python `int(s, 16)`: `none` models a raised `ValueError`. -/
def pyIntHex (cs : List Char) : Option ℤ := pyIntHexCore (pyStrip cs)

/-! ### `ColorConverter.hex_to_rgb` and `ColorConverter.rgb_to_hex` -/

/-- `ColorConverter.hex_to_rgb`: `hex_color.lstrip('#')` removes every
leading `'#'`; a `ValueError` (modelled by `none`) is raised when the
remainder does not have length 6 or when a two-character slice is not a
valid base-16 literal for `int`. -/
def hex_to_rgb (s : String) : Option (ℤ × ℤ × ℤ) :=
  let t := s.data.dropWhile (· == '#')
  if t.length = 6 then
    (pyIntHex (t.take 2)).bind fun r =>
      (pyIntHex ((t.drop 2).take 2)).bind fun g =>
        (pyIntHex (t.drop 4)).map fun b => (r, g, b)
  else none

/-- Uppercase hexadecimal digits of a natural number, most significant
first (`Nat.toDigits` produces lowercase letters). -/
def hexChars (n : ℕ) : List Char :=
  (Nat.toDigits 16 n).map Char.toUpper

/-- Python `"\x7b:02X\x7d".format(n)`: uppercase hex, left padded with `'0'`
to width 2; a negative number carries a leading minus sign that counts
toward the width. -/
def fmt02X (n : ℤ) : List Char :=
  if n < 0 then '-' :: hexChars n.natAbs
  else List.replicate (2 - (hexChars n.toNat).length) '0' ++ hexChars n.toNat

/-- `ColorConverter.rgb_to_hex`: `"#\x7b:02X\x7d\x7b:02X\x7d\x7b:02X\x7d".format(*rgb)`. -/
def rgb_to_hex (rgb : ℤ × ℤ × ℤ) : String :=
  String.mk ('#' :: (fmt02X rgb.1 ++ fmt02X rgb.2.1 ++ fmt02X rgb.2.2))

/-! ### Specification-side predicates for the hex format -/

/-- Modelled from the spec: the string, after stripping one optional
leading `'#'`, consists of exactly 6 hexadecimal digits.  This follows the
wording of the specification, to be compared against the behaviour of
`hex_to_rgb` above. -/
def specSixHexDigits (s : String) : Prop :=
  let t := if s.data.head? = some '#' then s.data.tail else s.data
  t.length = 6 ∧ ∀ c ∈ t, (hexDigitVal? c).isSome

instance (s : String) : Decidable (specSixHexDigits s) := by
  unfold specSixHexDigits; infer_instance

/-- The exact condition under which `hex_to_rgb` succeeds: after dropping
every leading `'#'` exactly six characters remain and each two-character
slice parses as a Python base-16 integer. -/
def hexFormatOk (s : String) : Prop :=
  let t := s.data.dropWhile (· == '#')
  t.length = 6 ∧ (pyIntHex (t.take 2)).isSome ∧
    (pyIntHex ((t.drop 2).take 2)).isSome ∧ (pyIntHex (t.drop 4)).isSome

instance (s : String) : Decidable (hexFormatOk s) := by
  unfold hexFormatOk; infer_instance

example : hex_to_rgb "#FFAACC" = some (255, 170, 204) := by decide
example : hex_to_rgb "ffaacc" = some (255, 170, 204) := by decide
example : hex_to_rgb "-1-2-3" = some (-1, -2, -3) := by decide
example : hex_to_rgb "##FFAACC" = some (255, 170, 204) := by decide
example : hex_to_rgb "12345" = none := by decide
example : hex_to_rgb "ZZZZZZ" = none := by decide
example : hex_to_rgb "" = none := by decide
example : rgb_to_hex (255, 170, 204) = "#FFAACC" := by decide
example : rgb_to_hex (0, 10, 204) = "#000ACC" := by decide
example : ¬ specSixHexDigits "-1-2-3" := by decide
example : pyIntHex " F".data = some 15 := by decide
example : pyIntHex "0x_A".data = some 10 := by decide
example : pyIntHex "0x".data = none := by decide
example : pyIntHex "0xA".data = some 10 := by decide
example : pyIntHex "A_B".data = some 171 := by decide
example : pyIntHex "_A".data = none := by decide
example : pyIntHex "A_".data = none := by decide

/-! ### The scikit-image colour pipeline over the reals

`Converter.py` delegates to `skimage.color.rgb2lab` and
`skimage.color.lab2rgb`.  Those library functions are embedded here over
the real numbers, following `skimage/color/colorconv.py`: `lab2rgb` is
`xyz2rgb (lab2xyz lab)` and `rgb2lab` is `xyz2lab (rgb2xyz rgb)`, with the
D65 / 2-degree reference white `(0.95047, 1, 1.08883)`. -/

noncomputable section

/-- The `xyz_from_rgb` matrix of `skimage.color.colorconv`. -/
def xyzFromRgb : Matrix (Fin 3) (Fin 3) ℝ :=
  !![0.412453, 0.357580, 0.180423;
     0.212671, 0.715160, 0.072169;
     0.019334, 0.119193, 0.950227]

/-- `rgb_from_xyz = linalg.inv(xyz_from_rgb)`. -/
def rgbFromXyz : Matrix (Fin 3) (Fin 3) ℝ := xyzFromRgb⁻¹

/-- `skimage.color.lab2xyz`: a negative `z` is clipped to `0` (with a
warning), the cube / linear branch is selected at `0.2068966`, and the
result is scaled by the reference white. -/
def lab2xyz (lab : Lab) : ℝ × ℝ × ℝ :=
  let y := (lab.1 + 16) / 116
  let x := lab.2.1 / 500 + y
  let z0 := y - lab.2.2 / 200
  let z := if z0 < 0 then 0 else z0
  let cube : ℝ → ℝ := fun t => if t > 0.2068966 then t ^ (3 : ℕ) else (t - 16 / 116) / 7.787
  (0.95047 * cube x, 1 * cube y, 1.08883 * cube z)

/-- The sRGB gamma encoding applied channelwise by `xyz2rgb`. -/
def srgbGammaEncode (c : ℝ) : ℝ :=
  if c > 0.0031308 then 1.055 * c ^ ((1 : ℝ) / 2.4) - 0.055 else 12.92 * c

/-- `np.clip(arr, 0, 1)` applied to one channel. -/
def clip01 (c : ℝ) : ℝ := max 0 (min c 1)

/-- `skimage.color.xyz2rgb`: linear map, gamma encoding, then
`np.clip(arr, 0, 1, out=arr)`. -/
def xyz2rgb (v : ℝ × ℝ × ℝ) : ℝ × ℝ × ℝ :=
  let w := rgbFromXyz.mulVec ![v.1, v.2.1, v.2.2]
  (clip01 (srgbGammaEncode (w 0)), clip01 (srgbGammaEncode (w 1)),
    clip01 (srgbGammaEncode (w 2)))

/-- `skimage.color.lab2rgb`. -/
def lab2rgb (lab : Lab) : ℝ × ℝ × ℝ := xyz2rgb (lab2xyz lab)

/-- Python's built-in `round` (also `np.round` on a scalar): round half to
even, otherwise to the nearest integer. -/
def pyRound (x : ℝ) : ℤ :=
  if Int.fract x = 1 / 2 then (if Even ⌊x⌋ then ⌊x⌋ else ⌊x⌋ + 1) else round x

/-- `ColorConverter.lab_to_rgb`: `tuple(int(round(c * 255)) for c in rgb)`
applied to `lab2rgb(lab)[0, 0, :]`. -/
def lab_to_rgb (lab : Lab) : ℤ × ℤ × ℤ :=
  let c := lab2rgb lab
  (pyRound (c.1 * 255), pyRound (c.2.1 * 255), pyRound (c.2.2 * 255))

/-- `ColorConverter.lab_to_hex` on a 3-element sequence argument: the same
`lab2rgb` / round pipeline as `lab_to_rgb`, then `rgb_to_hex`. -/
def lab_to_hex (lab : Lab) : String := rgb_to_hex (lab_to_rgb lab)

/-- The sRGB gamma linearization applied channelwise by `rgb2xyz`. -/
def srgbLinearize (c : ℝ) : ℝ :=
  if c > 0.04045 then ((c + 0.055) / 1.055) ^ (2.4 : ℝ) else c / 12.92

/-- `skimage.color.rgb2xyz`. -/
def rgb2xyz (v : ℝ × ℝ × ℝ) : ℝ × ℝ × ℝ :=
  let w := xyzFromRgb.mulVec ![srgbLinearize v.1, srgbLinearize v.2.1, srgbLinearize v.2.2]
  (w 0, w 1, w 2)

/-- `skimage.color.xyz2lab` (D65, 2-degree observer). -/
def xyz2lab (v : ℝ × ℝ × ℝ) : Lab :=
  let f : ℝ → ℝ := fun t => if t > 0.008856 then t ^ ((1 : ℝ) / 3) else 7.787 * t + 16 / 116
  let x := f (v.1 / 0.95047)
  let y := f (v.2.1 / 1)
  let z := f (v.2.2 / 1.08883)
  (116 * y - 16, 500 * (x - y), 200 * (y - z))

/-- `ColorConverter.rgb_to_lab`: channels are divided by `255.0` and fed to
`rgb2lab`. -/
def rgb_to_lab (rgb : ℝ × ℝ × ℝ) : Lab :=
  xyz2lab (rgb2xyz (rgb.1 / 255, rgb.2.1 / 255, rgb.2.2 / 255))

/-- The set of L*a*b* triples reachable from a valid 8-bit RGB triple under
the converter's own forward transform (the "representable sRGB gamut" of
the specification). -/
def sRGBGamut : Set Lab :=
  {lab | ∃ r g b : ℤ, 0 ≤ r ∧ r ≤ 255 ∧ 0 ≤ g ∧ g ≤ 255 ∧ 0 ≤ b ∧ b ≤ 255 ∧
    rgb_to_lab ((r : ℝ), (g : ℝ), (b : ℝ)) = lab}

end

lemma clip01_nonneg (c : ℝ) : 0 ≤ clip01 c := le_max_left 0 _

lemma clip01_le_one (c : ℝ) : clip01 c ≤ 1 :=
  max_le (by norm_num) (min_le_right c 1)

lemma pyRound_nonneg {x : ℝ} (h : 0 ≤ x) : 0 ≤ pyRound x := by
  unfold pyRound
  split
  · have h0 : (0 : ℤ) ≤ ⌊x⌋ := Int.floor_nonneg.mpr h
    split
    · exact h0
    · omega
  · rw [round_eq]
    exact Int.floor_nonneg.mpr (by linarith)

lemma pyRound_le_255 {x : ℝ} (h : x ≤ 255) : pyRound x ≤ 255 := by
  unfold pyRound
  split
  · rename_i hf
    rw [Int.fract] at hf
    have hx : x = (⌊x⌋ : ℝ) + 1 / 2 := by linarith
    have hlt : (⌊x⌋ : ℝ) < 255 := by linarith
    have hlt' : ⌊x⌋ < 255 := by exact_mod_cast hlt
    split <;> omega
  · rw [round_eq]
    have h1 : ((⌊x + 1 / 2⌋ : ℤ) : ℝ) < 256 := by
      calc ((⌊x + 1 / 2⌋ : ℤ) : ℝ) ≤ x + 1 / 2 := Int.floor_le _
        _ < 256 := by linarith
    have h2 : ⌊x + 1 / 2⌋ < 256 := by exact_mod_cast h1
    omega

/-- Every channel produced by `lab_to_rgb` lies in `[0, 255]`: the final
`np.clip` in `skimage`'s `xyz2rgb` bounds each real channel into `[0, 1]`
before the `* 255` and rounding. -/
lemma lab_to_rgb_mem (lab : Lab) :
    (0 ≤ (lab_to_rgb lab).1 ∧ (lab_to_rgb lab).1 ≤ 255) ∧
    (0 ≤ (lab_to_rgb lab).2.1 ∧ (lab_to_rgb lab).2.1 ≤ 255) ∧
    (0 ≤ (lab_to_rgb lab).2.2 ∧ (lab_to_rgb lab).2.2 ≤ 255) := by
  have key : ∀ c : ℝ, 0 ≤ pyRound (clip01 c * 255) ∧ pyRound (clip01 c * 255) ≤ 255 := by
    intro c
    have h0 := clip01_nonneg c
    have h1 := clip01_le_one c
    constructor
    · exact pyRound_nonneg (by nlinarith)
    · exact pyRound_le_255 (by nlinarith)
  have h1 := key (srgbGammaEncode ((rgbFromXyz.mulVec
    ![(lab2xyz lab).1, (lab2xyz lab).2.1, (lab2xyz lab).2.2]) 0))
  have h2 := key (srgbGammaEncode ((rgbFromXyz.mulVec
    ![(lab2xyz lab).1, (lab2xyz lab).2.1, (lab2xyz lab).2.2]) 1))
  have h3 := key (srgbGammaEncode ((rgbFromXyz.mulVec
    ![(lab2xyz lab).1, (lab2xyz lab).2.1, (lab2xyz lab).2.2]) 2))
  exact ⟨h1, h2, h3⟩

/-! ### The clustering engine (`Cluster.py`) -/

/-- `PhotoVariant.py`: one parsed record. -/
structure PhotoVariant where
  file : String
  photo : String
  colors_hex : List String
  colors_lab : List Lab

/-- The inner `Dict[str, List[PhotoVariant]]` of one photo. -/
abbrev PersonsMap : Type := List (String × List PhotoVariant)

/-- `variants_by_photo_and_person : Dict[str, Dict[str, List[PhotoVariant]]]`. -/
abbrev Repo : Type := List (String × PersonsMap)

/-- One `(photoId, k)` entry: the ordered `(lab_val, hex_val)` pairs. -/
abbrev ClusterEntry : Type := List (Lab × String)

/-- The `Dict[str, Dict[int, List[Tuple[List[float], str]]]]` result. -/
abbrev ClusterResult : Type := List (String × List (ℕ × ClusterEntry))

/-- One call of the external `sklearn.cluster.KMeans(n_clusters=k).fit`,
as a function of the cluster count and the data: it returns
`(cluster_centers_, labels_)`.  With `random_state=0` the library call is
a fixed function of its inputs, which is what a value of this type is. -/
abbrev KMeansFn : Type := ℕ → List Lab → List Lab × List ℕ

/-- Guarantees of `sklearn.cluster.KMeans` used by the code, assumed of
the abstract k-means function whenever `1 ≤ k ≤ len(points)`: `k` centroid
rows, one label per point, labels in `range(k)`, and every cluster
non-empty (each label value occurs). -/
def KMContract (km : KMeansFn) : Prop :=
  ∀ k pts, 1 ≤ k → k ≤ pts.length →
    (km k pts).1.length = k ∧ (km k pts).2.length = pts.length ∧
    (∀ l ∈ (km k pts).2, l < k) ∧ (∀ i, i < k → i ∈ (km k pts).2)

/-- The pooling loop of `cluster_colors` (`Cluster.py` lines 20-24) and of
`on_recluster` (`App.py` lines 195-199): all LAB points of records whose
colour list has exactly `k` entries, across every person, in iteration
order. -/
def poolPoints (persons : PersonsMap) (k : ℕ) : List Lab :=
  persons.flatMap fun pv =>
    pv.2.flatMap fun v => if v.colors_lab.length = k then v.colors_lab else []

/-- The first-occurrence scan of the label array (`Cluster.py` lines
35-42): collect unseen labels in order, stopping once `k` distinct labels
have been seen. -/
def buildOrder (k : ℕ) (order : List ℕ) : List ℕ → List ℕ
  | [] => order
  | lbl :: rest =>
    let order' := if lbl ∈ order then order else order ++ [lbl]
    if order'.length = k then order' else buildOrder k order' rest

/-- The body of the `for k in range(1, 6)` loop of `cluster_colors`:
`none` when fewer than `k` points were pooled (the `continue`), otherwise
the ordered `(lab_val, hex_val)` list.  `centroids[lbl]` is modelled with
`getD` (the k-means contract keeps every label in bounds). -/
noncomputable def clusterEntry (km : KMeansFn) (persons : PersonsMap) (k : ℕ) :
    Option ClusterEntry :=
  let lab_points := poolPoints persons k
  if lab_points.length < k then none
  else
    let fitted := km k lab_points
    let order := buildOrder k [] fitted.2
    some (order.map fun lbl =>
      let centroid := fitted.1.getD lbl ((0 : ℝ), (0 : ℝ), (0 : ℝ))
      (centroid, lab_to_hex centroid))

/-- `ColorClusterer.cluster_colors`: every photo receives an inner mapping
(`result[photo] = \x7b\x7d`), populated for each `k` in `1..5` that has enough
points. -/
noncomputable def cluster_colors (km : KMeansFn) (variants : Repo) : ClusterResult :=
  variants.map fun pp =>
    (pp.1, (List.range' 1 5).filterMap fun k =>
      (clusterEntry km pp.2 k).map fun e => (k, e))

/-- `result[photo][k]` as a partial lookup. -/
def crLookup (res : ClusterResult) (photo : String) (k : ℕ) :
    Option ClusterEntry :=
  (List.lookup photo res).bind (List.lookup k)

/-- Modelled from the spec: the cluster indices of a label scan "in the
order in which each cluster index is first seen". -/
def firstSeen (labels : List ℕ) : List ℕ :=
  labels.foldl (fun acc l => if l ∈ acc then acc else acc ++ [l]) []

/-! ### `ColorPlotApp.on_recluster` (`App.py` lines 194-228) -/

/-- Assignment `d[key] = v` on an insertion-ordered dict: replace in place
if the key exists, otherwise append. -/
def dictSet {α β : Type} [BEq α] (l : List (α × β)) (key : α) (v : β) :
    List (α × β) :=
  if l.any (fun p => p.1 == key) then
    l.map fun p => if p.1 == key then (key, v) else p
  else l ++ [(key, v)]

/-- `self.clusters.setdefault(photo_name, \x7b\x7d)[k] = new_clusters`. -/
def setdefaultSet (cl : ClusterResult) (photo : String) (k : ℕ)
    (v : ClusterEntry) : ClusterResult :=
  if cl.any (fun p => p.1 == photo) then
    cl.map fun p => if p.1 == photo then (p.1, dictSet p.2 k v) else p
  else cl ++ [(photo, [(k, v)])]

/-- `on_recluster` after a photo and `k` have been selected: pool the
points of the chosen photo (`self.variants_by_photo_and_person.get(photo_name, \x7b\x7d)`),
warn and leave the held clusters unchanged when fewer than `k` points
exist, otherwise run the unseeded k-means (`random_state=None`, here an
arbitrary `KMeansFn` argument), order by first occurrence and store the
new list under the single `(photo, k)` entry. -/
noncomputable def on_recluster (clusters : ClusterResult) (variants : Repo)
    (km : KMeansFn) (photo : String) (k : ℕ) : ClusterResult :=
  let persons := (List.lookup photo variants).getD []
  match clusterEntry km persons k with
  | none => clusters
  | some new_clusters => setdefaultSet clusters photo k new_clusters

/-! ### `ColorClusterer.save_clusters` (`Cluster.py` lines 53-61) -/

/-- Python `sorted` on string keys: ascending code-point lexicographic
order (Lean's `String` order coincides on these keys). -/
def sortedStrings (l : List String) : List String :=
  l.mergeSort fun a b => decide (a ≤ b)

/-- Python `sorted` on integer keys. -/
def sortedNats (l : List ℕ) : List ℕ :=
  l.mergeSort fun a b => decide (a ≤ b)

/-- One written line: `f"\x7bphoto\x7d  " + ", ".join(hex_codes)` followed by the
`"\n"` passed to `f.write`. -/
def formatLine (photo : String) (hexes : List String) : String :=
  photo ++ "  " ++ String.intercalate ", " hexes ++ "\n"

/-- The lines `save_clusters` writes, in order: photos sorted, then the
present `k`s sorted, one line each. -/
def linesOf (cl : ClusterResult) : List String :=
  (sortedStrings (cl.map fun p => p.1)).flatMap fun photo =>
    (sortedNats (((List.lookup photo cl).getD []).map fun p => p.1)).map fun k =>
      formatLine photo
        (((List.lookup k ((List.lookup photo cl).getD [])).getD []).map fun p => p.2)

/-- The full text produced by the writes of `save_clusters`. -/
def serializeClusters (cl : ClusterResult) : String :=
  String.join (linesOf cl)

/-- `save_clusters` recomputes `cluster_colors()` and writes its report;
this is the complete file content on success. -/
noncomputable def save_clusters (km : KMeansFn) (variants : Repo) : String :=
  serializeClusters (cluster_colors km variants)

/-- File content left behind when the run of `save_clusters` is
interrupted by an `IOError` after `n` of its line writes have reached the
file: `open(output_file, 'w')` truncates, and each loop iteration appends
one line. -/
noncomputable def save_clusters_upTo (km : KMeansFn) (variants : Repo) (n : ℕ) : String :=
  String.join ((linesOf (cluster_colors km variants)).take n)

/-- Well-formedness a `ClusterResult` built from Python dicts always has:
unique photo keys and unique `k` keys per photo. -/
def CRWF (cl : ClusterResult) : Prop :=
  (cl.map fun p => p.1).Nodup ∧ ∀ pp ∈ cl, (pp.2.map fun p => p.1).Nodup

/-- The flattened `(photoId, k, entry)` triples of a `ClusterResult`. -/
def crTriples (cl : ClusterResult) : List (String × ℕ × ClusterEntry) :=
  cl.flatMap fun pp => pp.2.map fun ke => (pp.1, ke.1, ke.2)

/-- Lexicographic `(photoId, k)` comparison of two triples. -/
def pairLe (a b : String × ℕ × ClusterEntry) : Bool :=
  decide (a.1 < b.1) || (a.1 == b.1 && decide (a.2.1 ≤ b.2.1))

/-- Modelled from the spec: one line per `(photoId, k)` entry, the entries
enumerated in lexicographic `(photoId, k)` order. -/
def specReportLines (cl : ClusterResult) : List String :=
  ((crTriples cl).mergeSort pairLe).map fun t =>
    formatLine t.1 (t.2.2.map fun p => p.2)

/-! ### Concrete fixtures used by the witnesses -/

/-- A concrete deterministic k-means used to instantiate witnesses: all
centroids at the origin, labels assigned round-robin. -/
def kmStub : KMeansFn := fun k pts =>
  (List.replicate k ((0 : ℝ), (0 : ℝ), (0 : ℝ)),
    (List.range pts.length).map (· % k))

lemma kmStub_contract : KMContract kmStub := by
  intro k pts h1 h2
  refine ⟨List.length_replicate k _, by simp [kmStub], ?_, ?_⟩
  · intro l hl
    simp only [kmStub, List.mem_map] at hl
    obtain ⟨i, _, rfl⟩ := hl
    exact Nat.mod_lt i h1
  · intro i hi
    simp only [kmStub, List.mem_map]
    exact ⟨i, List.mem_range.mpr (lt_of_lt_of_le hi h2), Nat.mod_eq_of_lt hi⟩

def variantA : PhotoVariant :=
  ⟨"p1.txt", "a", ["#000000"], [((0 : ℝ), (0 : ℝ), (0 : ℝ))]⟩

def variantB : PhotoVariant :=
  ⟨"p1.txt", "b", ["#000000"], [((0 : ℝ), (0 : ℝ), (0 : ℝ))]⟩

def repoA : Repo := [("a", [("p1", [variantA])])]

def repoAB : Repo := [("a", [("p1", [variantA])]), ("b", [("p1", [variantB])])]

def repoNoData : Repo := [("e", [])]

noncomputable def entryA : ClusterEntry :=
  [(((0 : ℝ), (0 : ℝ), (0 : ℝ)), lab_to_hex ((0 : ℝ), (0 : ℝ), (0 : ℝ)))]

example : crLookup (cluster_colors kmStub repoA) "a" 1 = some entryA := rfl
example : cluster_colors kmStub repoNoData = [("e", [])] := rfl
example : on_recluster [("a", [(1, entryA)])] repoAB kmStub "b" 1 =
    [("a", [(1, entryA)]), ("b", [(1, entryA)])] := rfl

/-! ### Properties of the first-occurrence scan -/

lemma mem_seenStep {acc : List ℕ} {l x : ℕ} :
    x ∈ (if l ∈ acc then acc else acc ++ [l]) ↔ x ∈ acc ∨ x = l := by
  split
  · rename_i hmem
    constructor
    · exact Or.inl
    · rintro (hx | rfl)
      · exact hx
      · exact hmem
  · simp

lemma nodup_seenStep {acc : List ℕ} {l : ℕ} (h : acc.Nodup) :
    (if l ∈ acc then acc else acc ++ [l]).Nodup := by
  split
  · exact h
  · rename_i hmem
    simp [List.nodup_append, h, hmem]

lemma foldl_seen_nodup :
    ∀ (labels acc : List ℕ), acc.Nodup →
      (labels.foldl (fun acc l => if l ∈ acc then acc else acc ++ [l]) acc).Nodup
  | [], _, h => h
  | _ :: ls, _, h => foldl_seen_nodup ls _ (nodup_seenStep h)

lemma mem_foldl_seen :
    ∀ (labels acc : List ℕ) (x : ℕ),
      x ∈ labels.foldl (fun acc l => if l ∈ acc then acc else acc ++ [l]) acc ↔
        x ∈ acc ∨ x ∈ labels := by
  intro labels
  induction labels with
  | nil => simp
  | cons l ls ih =>
    intro acc x
    rw [List.foldl_cons, ih, mem_seenStep]
    simp only [List.mem_cons]
    tauto

lemma foldl_seen_saturated :
    ∀ (labels acc : List ℕ), (∀ x ∈ labels, x ∈ acc) →
      labels.foldl (fun acc l => if l ∈ acc then acc else acc ++ [l]) acc = acc := by
  intro labels
  induction labels with
  | nil => intro acc _; rfl
  | cons l ls ih =>
    intro acc h
    rw [List.foldl_cons, if_pos (h l (List.mem_cons_self l ls))]
    exact ih acc fun x hx => h x (List.mem_cons_of_mem l hx)

lemma full_of_nodup_lt {l : List ℕ} {k : ℕ} (hn : l.Nodup)
    (hlt : ∀ x ∈ l, x < k) (hlen : l.length = k) : ∀ y, y < k → y ∈ l := by
  have hsub : l.toFinset ⊆ Finset.range k := by
    intro x hx
    exact Finset.mem_range.mpr (hlt x (List.mem_toFinset.mp hx))
  have heq : l.toFinset = Finset.range k :=
    Finset.eq_of_subset_of_card_le hsub
      (by rw [Finset.card_range, List.toFinset_card_of_nodup hn, hlen])
  intro y hy
  exact List.mem_toFinset.mp (heq ▸ Finset.mem_range.mpr hy)

/-- With every label below `k`, the early `break` of the scan in the source
never discards an unseen label: the loop computes exactly the
first-occurrence sequence. -/
lemma buildOrder_eq_foldl {k : ℕ} :
    ∀ (labels acc : List ℕ), acc.Nodup → (∀ x ∈ acc, x < k) →
      (∀ x ∈ labels, x < k) →
      buildOrder k acc labels =
        labels.foldl (fun acc l => if l ∈ acc then acc else acc ++ [l]) acc := by
  intro labels
  induction labels with
  | nil => intro acc _ _ _; rfl
  | cons l ls ih =>
    intro acc hnd hacc hlab
    have hnd' : (if l ∈ acc then acc else acc ++ [l]).Nodup := nodup_seenStep hnd
    have hlt' : ∀ x ∈ (if l ∈ acc then acc else acc ++ [l]), x < k := by
      intro x hx
      rcases mem_seenStep.mp hx with hx | rfl
      · exact hacc x hx
      · exact hlab x (List.mem_cons_self x ls)
    rw [List.foldl_cons]
    show (if (if l ∈ acc then acc else acc ++ [l]).length = k
        then (if l ∈ acc then acc else acc ++ [l])
        else buildOrder k (if l ∈ acc then acc else acc ++ [l]) ls) = _
    by_cases hk : (if l ∈ acc then acc else acc ++ [l]).length = k
    · rw [if_pos hk]
      exact (foldl_seen_saturated ls _ fun x hx =>
        full_of_nodup_lt hnd' hlt' hk x (hlab x (List.mem_cons_of_mem l hx))).symm
    · rw [if_neg hk]
      exact ih _ hnd' hlt' fun x hx => hlab x (List.mem_cons_of_mem l hx)

lemma firstSeen_nodup (labels : List ℕ) : (firstSeen labels).Nodup :=
  foldl_seen_nodup labels [] List.nodup_nil

lemma mem_firstSeen {labels : List ℕ} {x : ℕ} :
    x ∈ firstSeen labels ↔ x ∈ labels := by
  unfold firstSeen
  rw [mem_foldl_seen]
  simp

lemma firstSeen_length {labels : List ℕ} {k : ℕ}
    (hlt : ∀ x ∈ labels, x < k) (hall : ∀ i, i < k → i ∈ labels) :
    (firstSeen labels).length = k := by
  have hsub : (firstSeen labels).toFinset ⊆ Finset.range k := by
    intro x hx
    exact Finset.mem_range.mpr (hlt x (mem_firstSeen.mp (List.mem_toFinset.mp hx)))
  have hsup : Finset.range k ⊆ (firstSeen labels).toFinset := by
    intro x hx
    exact List.mem_toFinset.mpr (mem_firstSeen.mpr (hall x (Finset.mem_range.mp hx)))
  have heq : (firstSeen labels).toFinset = Finset.range k :=
    Finset.Subset.antisymm hsub hsup
  rw [← List.toFinset_card_of_nodup (firstSeen_nodup labels), heq, Finset.card_range]

lemma buildOrder_eq_firstSeen {k : ℕ} {labels : List ℕ}
    (hlt : ∀ x ∈ labels, x < k) :
    buildOrder k [] labels = firstSeen labels :=
  buildOrder_eq_foldl labels [] List.nodup_nil (by simp) hlt

/-! ### Looking up entries of `cluster_colors` -/

lemma lookup_cluster_colors (km : KMeansFn) (photo : String) :
    ∀ variants : Repo,
      List.lookup photo (cluster_colors km variants) =
        (List.lookup photo variants).map fun persons =>
          (List.range' 1 5).filterMap fun k =>
            (clusterEntry km persons k).map fun e => (k, e) := by
  intro variants
  induction variants with
  | nil => rfl
  | cons pp tl ih =>
    obtain ⟨p, ps⟩ := pp
    show List.lookup photo ((p, _) :: cluster_colors km tl) = _
    cases h : photo == p <;> simp [List.lookup, h, ih]

lemma lookup_filterMap_keyed {β : Type} (f : ℕ → Option β) (k : ℕ) (entry : β) :
    ∀ l : List ℕ,
      List.lookup k (l.filterMap fun j => (f j).map fun e => (j, e)) = some entry →
      k ∈ l ∧ f k = some entry := by
  intro l
  induction l with
  | nil => simp
  | cons j tl ih =>
    intro h
    rw [List.filterMap_cons] at h
    cases hf : f j with
    | none =>
      rw [hf] at h
      obtain ⟨h1, h2⟩ := ih h
      exact ⟨List.mem_cons_of_mem j h1, h2⟩
    | some e =>
      rw [hf] at h
      simp only [Option.map_some'] at h
      cases hkj : k == j with
      | false =>
        rw [List.lookup, hkj] at h
        obtain ⟨h1, h2⟩ := ih h
        exact ⟨List.mem_cons_of_mem j h1, h2⟩
      | true =>
        rw [List.lookup, hkj] at h
        have hk : k = j := eq_of_beq hkj
        subst hk
        exact ⟨List.mem_cons_self k tl, hf.trans (by simpa using h)⟩

lemma clusterEntry_eq_some {km : KMeansFn} {persons : PersonsMap} {k : ℕ}
    {entry : ClusterEntry} (h : clusterEntry km persons k = some entry) :
    k ≤ (poolPoints persons k).length ∧
      entry = (buildOrder k [] (km k (poolPoints persons k)).2).map fun lbl =>
        ((km k (poolPoints persons k)).1.getD lbl ((0 : ℝ), (0 : ℝ), (0 : ℝ)),
          lab_to_hex ((km k (poolPoints persons k)).1.getD lbl
            ((0 : ℝ), (0 : ℝ), (0 : ℝ)))) := by
  simp only [clusterEntry] at h
  split at h
  · exact absurd h (by simp)
  · rename_i hlen
    exact ⟨not_lt.mp hlen, (Option.some_inj.mp h).symm⟩

/-- Central description of one entry of `cluster_colors`: where it comes
from and its exact shape, assuming the k-means contract. -/
lemma cluster_entry_spec {km : KMeansFn} {variants : Repo} {photo : String}
    {k : ℕ} {entry : ClusterEntry} (hkm : KMContract km)
    (h : crLookup (cluster_colors km variants) photo k = some entry) :
    ∃ persons, List.lookup photo variants = some persons ∧
      1 ≤ k ∧ k ≤ 5 ∧ k ≤ (poolPoints persons k).length ∧
      (∀ x ∈ (km k (poolPoints persons k)).2, x < k) ∧
      (∀ i, i < k → i ∈ (km k (poolPoints persons k)).2) ∧
      entry = (firstSeen (km k (poolPoints persons k)).2).map fun lbl =>
        ((km k (poolPoints persons k)).1.getD lbl ((0 : ℝ), (0 : ℝ), (0 : ℝ)),
          lab_to_hex ((km k (poolPoints persons k)).1.getD lbl
            ((0 : ℝ), (0 : ℝ), (0 : ℝ)))) := by
  unfold crLookup at h
  rw [lookup_cluster_colors] at h
  cases hp : List.lookup photo variants with
  | none => rw [hp] at h; simp at h
  | some persons =>
    rw [hp] at h
    simp only [Option.map_some', Option.some_bind] at h
    obtain ⟨hmem, hce⟩ :=
      lookup_filterMap_keyed (fun j => clusterEntry km persons j) k entry _ h
    have hk15 := List.mem_range'_1.mp hmem
    obtain ⟨hlen, hshape⟩ := clusterEntry_eq_some hce
    obtain ⟨_, _, hlt, hall⟩ :=
      hkm k (poolPoints persons k) (by omega) hlen
    refine ⟨persons, rfl, by omega, by omega, hlen, hlt, hall, ?_⟩
    rw [hshape, buildOrder_eq_firstSeen hlt]

/-! ### Dict-update lemmas for `on_recluster` -/

lemma lookup_cons_self {α β : Type} [BEq α] [LawfulBEq α] (a : α) (b : β)
    (l : List (α × β)) : List.lookup a ((a, b) :: l) = some b := by
  simp [List.lookup]

lemma lookup_cons_ne {α β : Type} [BEq α] {a q : α} (hq : (a == q) = false)
    (b : β) (l : List (α × β)) : List.lookup a ((q, b) :: l) = List.lookup a l := by
  simp [List.lookup, hq]

lemma any_key_iff_lookup_isSome {α β : Type} [BEq α] [LawfulBEq α] (a : α) :
    ∀ l : List (α × β), (l.any fun p => p.1 == a) = true ↔ (List.lookup a l).isSome := by
  intro l
  induction l with
  | nil => simp [List.lookup]
  | cons p tl ih =>
    obtain ⟨q, b⟩ := p
    by_cases h : q = a
    · subst h
      simp [lookup_cons_self]
    · have h1 : (q == a) = false := beq_eq_false_iff_ne.mpr h
      have h2 : (a == q) = false := beq_eq_false_iff_ne.mpr (Ne.symm h)
      rw [List.any_cons, h1, lookup_cons_ne h2]
      simp only [Bool.false_or]
      exact ih

lemma lookup_dictSet_same {α β : Type} [BEq α] [LawfulBEq α] (a : α) (v : β) :
    ∀ l : List (α × β), List.lookup a (dictSet l a v) = some v := by
  have aux1 : ∀ l : List (α × β),
      List.lookup a (l.map fun p => if p.1 == a then (a, v) else p) =
        if (List.lookup a l).isSome then some v else none := by
    intro l
    induction l with
    | nil => simp [List.lookup]
    | cons p tl ih =>
      obtain ⟨q, b⟩ := p
      simp only [List.map_cons]
      by_cases h : q = a
      · subst h
        rw [if_pos (beq_self_eq_true q), lookup_cons_self, lookup_cons_self]
        simp
      · have h1 : (q == a) = false := beq_eq_false_iff_ne.mpr h
        have h2 : (a == q) = false := beq_eq_false_iff_ne.mpr (Ne.symm h)
        rw [if_neg (by simp [h1]), lookup_cons_ne h2, lookup_cons_ne h2, ih]
  have aux2 : ∀ l : List (α × β), List.lookup a l = none →
      List.lookup a (l ++ [(a, v)]) = some v := by
    intro l
    induction l with
    | nil => simp [lookup_cons_self]
    | cons p tl ih =>
      obtain ⟨q, b⟩ := p
      intro h
      cases hqa : a == q with
      | true => rw [List.lookup, hqa] at h; simp at h
      | false =>
        rw [lookup_cons_ne hqa] at h
        rw [List.cons_append, lookup_cons_ne hqa]
        exact ih h
  intro l
  unfold dictSet
  by_cases hany : (l.any fun p => p.1 == a) = true
  · rw [if_pos hany, aux1 l, if_pos ((any_key_iff_lookup_isSome a l).mp hany)]
  · rw [if_neg hany]
    refine aux2 l ?_
    have hn := (any_key_iff_lookup_isSome a l).not.mp hany
    cases h : List.lookup a l
    · rfl
    · exact absurd (by rw [h]; rfl) hn

lemma lookup_dictSet_other {α β : Type} [BEq α] [LawfulBEq α] (a a' : α) (v : β)
    (hne : a' ≠ a) :
    ∀ l : List (α × β), List.lookup a' (dictSet l a v) = List.lookup a' l := by
  have hba : (a' == a) = false := beq_eq_false_iff_ne.mpr hne
  have aux1 : ∀ l : List (α × β),
      List.lookup a' (l.map fun p => if p.1 == a then (a, v) else p) =
        List.lookup a' l := by
    intro l
    induction l with
    | nil => rfl
    | cons p tl ih =>
      obtain ⟨q, b⟩ := p
      simp only [List.map_cons]
      by_cases h : q = a
      · subst h
        rw [if_pos (beq_self_eq_true q), lookup_cons_ne hba, lookup_cons_ne hba, ih]
      · have h1 : (q == a) = false := beq_eq_false_iff_ne.mpr h
        rw [if_neg (by simp [h1])]
        cases hq : a' == q with
        | true => rw [eq_of_beq hq, lookup_cons_self, lookup_cons_self]
        | false => rw [lookup_cons_ne hq, lookup_cons_ne hq, ih]
  have aux2 : ∀ l : List (α × β),
      List.lookup a' (l ++ [(a, v)]) = List.lookup a' l := by
    intro l
    induction l with
    | nil => rw [List.nil_append, lookup_cons_ne hba]
    | cons p tl ih =>
      obtain ⟨q, b⟩ := p
      rw [List.cons_append]
      cases hq : a' == q with
      | true => rw [eq_of_beq hq, lookup_cons_self, lookup_cons_self]
      | false => rw [lookup_cons_ne hq, lookup_cons_ne hq, ih]
  intro l
  unfold dictSet
  split
  · exact aux1 l
  · exact aux2 l

lemma lookup_setdefaultSet_same (cl : ClusterResult) (photo : String) (k : ℕ)
    (v : ClusterEntry) :
    List.lookup photo (setdefaultSet cl photo k v) =
      some (dictSet ((List.lookup photo cl).getD []) k v) := by
  have aux1 : ∀ l : ClusterResult, (List.lookup photo l).isSome →
      List.lookup photo
          (l.map fun p => if p.1 == photo then (p.1, dictSet p.2 k v) else p) =
        some (dictSet ((List.lookup photo l).getD []) k v) := by
    intro l
    induction l with
    | nil => simp [List.lookup]
    | cons p tl ih =>
      obtain ⟨q, inner⟩ := p
      simp only [List.map_cons]
      by_cases h : q = photo
      · subst h
        intro _
        rw [if_pos (beq_self_eq_true q), lookup_cons_self, lookup_cons_self]
        rfl
      · have h1 : (q == photo) = false := beq_eq_false_iff_ne.mpr h
        have h2 : (photo == q) = false := beq_eq_false_iff_ne.mpr (Ne.symm h)
        intro hs
        rw [lookup_cons_ne h2] at hs
        rw [if_neg (by simp [h1]), lookup_cons_ne h2, lookup_cons_ne h2]
        exact ih hs
  have aux2 : ∀ l : ClusterResult, List.lookup photo l = none →
      List.lookup photo (l ++ [(photo, [(k, v)])]) = some [(k, v)] := by
    intro l
    induction l with
    | nil => simp [lookup_cons_self]
    | cons p tl ih =>
      obtain ⟨q, inner⟩ := p
      intro h
      cases hq : photo == q with
      | true => rw [List.lookup, hq] at h; simp at h
      | false =>
        rw [lookup_cons_ne hq] at h
        rw [List.cons_append, lookup_cons_ne hq]
        exact ih h
  unfold setdefaultSet
  by_cases hany : (cl.any fun p => p.1 == photo) = true
  · rw [if_pos hany]
    exact aux1 cl ((any_key_iff_lookup_isSome photo cl).mp hany)
  · rw [if_neg hany]
    have hn : List.lookup photo cl = none := by
      have hs := (any_key_iff_lookup_isSome photo cl).not.mp hany
      cases h : List.lookup photo cl
      · rfl
      · exact absurd (by rw [h]; rfl) hs
    rw [aux2 cl hn, hn]
    simp [dictSet]

lemma lookup_setdefaultSet_other (cl : ClusterResult) (photo photo' : String)
    (k : ℕ) (v : ClusterEntry) (hne : photo' ≠ photo) :
    List.lookup photo' (setdefaultSet cl photo k v) = List.lookup photo' cl := by
  have hba : (photo' == photo) = false := beq_eq_false_iff_ne.mpr hne
  have aux1 : ∀ l : ClusterResult,
      List.lookup photo'
          (l.map fun p => if p.1 == photo then (p.1, dictSet p.2 k v) else p) =
        List.lookup photo' l := by
    intro l
    induction l with
    | nil => rfl
    | cons p tl ih =>
      obtain ⟨q, inner⟩ := p
      simp only [List.map_cons]
      by_cases h : q = photo
      · subst h
        rw [if_pos (beq_self_eq_true q), lookup_cons_ne hba, lookup_cons_ne hba, ih]
      · have h1 : (q == photo) = false := beq_eq_false_iff_ne.mpr h
        rw [if_neg (by simp [h1])]
        cases hq : photo' == q with
        | true => rw [eq_of_beq hq, lookup_cons_self, lookup_cons_self]
        | false => rw [lookup_cons_ne hq, lookup_cons_ne hq, ih]
  have aux2 : ∀ l : ClusterResult,
      List.lookup photo' (l ++ [(photo, [(k, v)])]) = List.lookup photo' l := by
    intro l
    induction l with
    | nil => rw [List.nil_append, lookup_cons_ne hba]
    | cons p tl ih =>
      obtain ⟨q, inner⟩ := p
      rw [List.cons_append]
      cases hq : photo' == q with
      | true => rw [eq_of_beq hq, lookup_cons_self, lookup_cons_self]
      | false => rw [lookup_cons_ne hq, lookup_cons_ne hq, ih]
  unfold setdefaultSet
  split
  · exact aux1 cl
  · exact aux2 cl

lemma on_recluster_eq {cl : ClusterResult} {variants : Repo} {km : KMeansFn}
    {photo : String} {k : ℕ}
    (h : k ≤ (poolPoints ((List.lookup photo variants).getD []) k).length) :
    ∃ e, clusterEntry km ((List.lookup photo variants).getD []) k = some e ∧
      on_recluster cl variants km photo k = setdefaultSet cl photo k e := by
  cases hce : clusterEntry km ((List.lookup photo variants).getD []) k with
  | none =>
    exfalso
    simp only [clusterEntry] at hce
    split at hce
    · rename_i hlt; omega
    · exact absurd hce (by simp)
  | some e =>
    refine ⟨e, rfl, ?_⟩
    show (match clusterEntry km ((List.lookup photo variants).getD []) k with
      | none => cl
      | some new_clusters => setdefaultSet cl photo k new_clusters) =
        setdefaultSet cl photo k e
    rw [hce]

/-! ### Range of values `int(slice, 16)` can produce on short slices -/

lemma hexDigitVal_lt {c : Char} {d : ℕ} (h : hexDigitVal? c = some d) : d < 16 := by
  unfold hexDigitVal? at h
  have h0 : '0'.toNat = 48 := rfl
  have h9 : '9'.toNat = 57 := rfl
  have ha : 'a'.toNat = 97 := rfl
  have hf : 'f'.toNat = 102 := rfl
  have hA : 'A'.toNat = 65 := rfl
  have hF : 'F'.toNat = 70 := rfl
  split_ifs at h with h1 h2 h3
  · obtain ⟨-, hb⟩ := h1
    have hb' : c.toNat ≤ '9'.toNat := hb
    injection h with hx
    omega
  · obtain ⟨-, hb⟩ := h2
    have hb' : c.toNat ≤ 'f'.toNat := hb
    injection h with hx
    omega
  · obtain ⟨-, hb⟩ := h3
    have hb' : c.toNat ≤ 'F'.toNat := hb
    injection h with hx
    omega

lemma hexDigitsRest_bound_aux :
    ∀ (n : ℕ) (cs : List Char), cs.length ≤ n → ∀ {ds : List ℕ},
      hexDigitsRest cs = some ds → ds.length ≤ cs.length ∧ ∀ d ∈ ds, d < 16 := by
  intro n
  induction n with
  | zero =>
    intro cs hcs ds h
    obtain rfl := List.length_eq_zero.mp (Nat.le_zero.mp hcs)
    obtain rfl := Option.some_inj.mp (show some ([] : List ℕ) = some ds from h)
    simp
  | succ n ih =>
    intro cs hcs ds h
    cases cs with
    | nil =>
      obtain rfl := Option.some_inj.mp (show some ([] : List ℕ) = some ds from h)
      simp
    | cons c cs'  =>
      by_cases hc : c = '_'
      · subst hc
        cases cs' with
        | nil =>
          exact absurd (show (none : Option (List ℕ)) = some ds from h) (by simp)
        | cons c2 cs2 =>
          replace h : (match hexDigitVal? c2, hexDigitsRest cs2 with
            | some d, some ds => some (d :: ds)
            | _, _ => none) = some ds := h
          cases hd : hexDigitVal? c2 with
          | none => rw [hd] at h; exact absurd h (by simp)
          | some d =>
            cases hr : hexDigitsRest cs2 with
            | none => rw [hd, hr] at h; exact absurd h (by simp)
            | some ds2 =>
              rw [hd, hr] at h
              obtain rfl := Option.some_inj.mp
                (show some (d :: ds2) = some ds from h)
              obtain ⟨ih1, ih2⟩ := ih cs2 (by simp at hcs ⊢; omega) hr
              refine ⟨by simp at ih1 ⊢; omega, ?_⟩
              intro x hx
              rcases List.mem_cons.mp hx with rfl | hx
              · exact hexDigitVal_lt hd
              · exact ih2 x hx
      · rw [hexDigitsRest.eq_def] at h
        simp only at h
        rw [if_neg hc] at h
        cases hd : hexDigitVal? c with
        | none => rw [hd] at h; exact absurd h (by simp)
        | some d =>
          cases hr : hexDigitsRest cs' with
          | none => rw [hd, hr] at h; exact absurd h (by simp)
          | some ds2 =>
            rw [hd, hr] at h
            obtain rfl := Option.some_inj.mp
              (show some (d :: ds2) = some ds from h)
            obtain ⟨ih1, ih2⟩ := ih cs' (by simp at hcs ⊢; omega) hr
            refine ⟨by simp at ih1 ⊢; omega, ?_⟩
            intro x hx
            rcases List.mem_cons.mp hx with rfl | hx
            · exact hexDigitVal_lt hd
            · exact ih2 x hx

lemma hexDigitsRest_bound {cs : List Char} {ds : List ℕ}
    (h : hexDigitsRest cs = some ds) :
    ds.length ≤ cs.length ∧ ∀ d ∈ ds, d < 16 :=
  hexDigitsRest_bound_aux cs.length cs le_rfl h

lemma parseHexDigits_bound {cs : List Char} {ds : List ℕ}
    (h : parseHexDigits cs = some ds) :
    ds.length ≤ cs.length ∧ ∀ d ∈ ds, d < 16 := by
  cases cs with
  | nil => exact absurd (show (none : Option (List ℕ)) = some ds from h) (by simp)
  | cons c cs' =>
    replace h : (match hexDigitVal? c, hexDigitsRest cs' with
      | some d, some ds => some (d :: ds)
      | _, _ => none) = some ds := h
    cases hd : hexDigitVal? c with
    | none => rw [hd] at h; exact absurd h (by simp)
    | some d =>
      cases hr : hexDigitsRest cs' with
      | none => rw [hd, hr] at h; exact absurd h (by simp)
      | some ds2 =>
        rw [hd, hr] at h
        obtain rfl := Option.some_inj.mp (show some (d :: ds2) = some ds from h)
        obtain ⟨ih1, ih2⟩ := hexDigitsRest_bound hr
        refine ⟨by simp at ih1 ⊢; omega, ?_⟩
        intro x hx
        rcases List.mem_cons.mp hx with rfl | hx
        · exact hexDigitVal_lt hd
        · exact ih2 x hx

lemma afterBaseMarker_bound {cs : List Char} {ds : List ℕ}
    (h : afterBaseMarker cs = some ds) :
    ds.length ≤ cs.length ∧ ∀ d ∈ ds, d < 16 := by
  match cs with
  | [] => exact parseHexDigits_bound h
  | [c] => exact parseHexDigits_bound h
  | c0 :: x :: rest =>
    rw [afterBaseMarker.eq_def] at h
    simp only at h
    by_cases h1 : c0 = '0' ∧ (x = 'x' ∨ x = 'X')
    · rw [if_pos h1] at h
      cases rest with
      | nil =>
        exact absurd (show (none : Option (List ℕ)) = some ds from h) (by simp)
      | cons r rest2 =>
        replace h : (if r = '_' then parseHexDigits rest2
            else parseHexDigits (r :: rest2)) = some ds := h
        by_cases h2 : r = '_'
        · rw [if_pos h2] at h
          obtain ⟨hl, hd⟩ := parseHexDigits_bound h
          exact ⟨by simp at hl ⊢; omega, hd⟩
        · rw [if_neg h2] at h
          obtain ⟨hl, hd⟩ := parseHexDigits_bound h
          exact ⟨by simp at hl ⊢; omega, hd⟩
    · rw [if_neg h1] at h
      exact parseHexDigits_bound h

lemma pyStrip_length_le (cs : List Char) : (pyStrip cs).length ≤ cs.length := by
  unfold pyStrip
  calc ((cs.dropWhile isPySpace).reverse.dropWhile isPySpace).reverse.length
      = ((cs.dropWhile isPySpace).reverse.dropWhile isPySpace).length :=
        List.length_reverse _
    _ ≤ (cs.dropWhile isPySpace).reverse.length :=
        (List.dropWhile_sublist _).length_le
    _ = (cs.dropWhile isPySpace).length := List.length_reverse _
    _ ≤ cs.length := (List.dropWhile_sublist _).length_le

lemma hexDigitsVal_lt {ds : List ℕ} (h : ∀ d ∈ ds, d < 16) :
    hexDigitsVal ds < 16 ^ ds.length := by
  have aux : ∀ (l : List ℕ) (a : ℕ), (∀ d ∈ l, d < 16) →
      l.foldl (fun a d => 16 * a + d) a < 16 ^ l.length * (a + 1) := by
    intro l
    induction l with
    | nil => intro a _; simp
    | cons d l ih =>
      intro a hd
      have h1 := ih (16 * a + d) fun x hx => hd x (List.mem_cons_of_mem d hx)
      have h2 : d < 16 := hd d (List.mem_cons_self d l)
      calc (d :: l).foldl (fun a d => 16 * a + d) a
          = l.foldl (fun a d => 16 * a + d) (16 * a + d) := by rw [List.foldl_cons]
        _ < 16 ^ l.length * (16 * a + d + 1) := h1
        _ ≤ 16 ^ l.length * (16 * (a + 1)) :=
            Nat.mul_le_mul_left _ (by omega)
        _ = 16 ^ (d :: l).length * (a + 1) := by
            rw [List.length_cons, pow_succ]
            ring
  simpa using aux ds 0 h

/-- On a slice of at most two characters, `int(slice, 16)` yields a value
in `[-255, 255]`. -/
lemma pyIntHex_bound {cs : List Char} (hl : cs.length ≤ 2) {v : ℤ}
    (h : pyIntHex cs = some v) : -255 ≤ v ∧ v ≤ 255 := by
  have habs : ∀ (l : List Char), l.length ≤ 2 → ∀ {ds : List ℕ},
      afterBaseMarker l = some ds → hexDigitsVal ds ≤ 255 := by
    intro l hll ds hds
    obtain ⟨h1, h2⟩ := afterBaseMarker_bound hds
    have h3 : hexDigitsVal ds < 16 ^ ds.length := hexDigitsVal_lt h2
    have h4 : (16 : ℕ) ^ ds.length ≤ 16 ^ 2 :=
      Nat.pow_le_pow_right (by omega) (by omega)
    have h5 : (16 : ℕ) ^ 2 = 256 := by norm_num
    omega
  have hstrip : (pyStrip cs).length ≤ 2 := Nat.le_trans (pyStrip_length_le cs) hl
  unfold pyIntHex at h
  cases hs : pyStrip cs with
  | nil =>
    rw [hs] at h
    exact absurd (show (none : Option ℤ) = some v from h) (by simp)
  | cons c rest =>
    rw [hs] at h
    rw [hs] at hstrip
    simp only [List.length_cons] at hstrip
    replace h : (if c = '+' then
        (afterBaseMarker rest).map (fun ds => (hexDigitsVal ds : ℤ))
      else if c = '-' then
        (afterBaseMarker rest).map (fun ds => -(hexDigitsVal ds : ℤ))
      else (afterBaseMarker (c :: rest)).map
        (fun ds => (hexDigitsVal ds : ℤ))) = some v := h
    by_cases h1 : c = '+'
    · rw [if_pos h1] at h
      cases hab : afterBaseMarker rest with
      | none => rw [hab] at h; exact absurd h (by simp)
      | some ds =>
        rw [hab, Option.map_some'] at h
        obtain rfl := Option.some_inj.mp h
        have hv := habs rest (by omega) hab
        constructor
        · omega
        · exact_mod_cast Int.ofNat_le.mpr hv
    · rw [if_neg h1] at h
      by_cases h2 : c = '-'
      · rw [if_pos h2] at h
        cases hab : afterBaseMarker rest with
        | none => rw [hab] at h; exact absurd h (by simp)
        | some ds =>
          rw [hab, Option.map_some'] at h
          obtain rfl := Option.some_inj.mp h
          have hv := habs rest (by omega) hab
          have hv' : (hexDigitsVal ds : ℤ) ≤ 255 := by exact_mod_cast hv
          constructor
          · omega
          · omega
      · rw [if_neg h2] at h
        cases hab : afterBaseMarker (c :: rest) with
        | none => rw [hab] at h; exact absurd h (by simp)
        | some ds =>
          rw [hab, Option.map_some'] at h
          obtain rfl := Option.some_inj.mp h
          have hv := habs (c :: rest) (by simp; omega) hab
          constructor
          · omega
          · exact_mod_cast Int.ofNat_le.mpr hv

/-! ### Failure characterization and round-trip for the hex conversions -/

lemma hex_to_rgb_eq_none_iff (s : String) :
    hex_to_rgb s = none ↔ ¬ hexFormatOk s := by
  simp only [hex_to_rgb, hexFormatOk]
  by_cases hl : (s.data.dropWhile (· == '#')).length = 6
  · rw [if_pos hl]
    cases h1 : pyIntHex ((s.data.dropWhile (· == '#')).take 2) <;>
      cases h2 : pyIntHex (((s.data.dropWhile (· == '#')).drop 2).take 2) <;>
      cases h3 : pyIntHex ((s.data.dropWhile (· == '#')).drop 4) <;>
      simp [h1, h2, h3, hl]
  · rw [if_neg hl]
    simp [hl]

lemma hex_to_rgb_eq_some {s : String} {r g b : ℤ}
    (h : hex_to_rgb s = some (r, g, b)) :
    (s.data.dropWhile (· == '#')).length = 6 ∧
      pyIntHex ((s.data.dropWhile (· == '#')).take 2) = some r ∧
      pyIntHex (((s.data.dropWhile (· == '#')).drop 2).take 2) = some g ∧
      pyIntHex ((s.data.dropWhile (· == '#')).drop 4) = some b := by
  simp only [hex_to_rgb] at h
  by_cases hl : (s.data.dropWhile (· == '#')).length = 6
  · rw [if_pos hl] at h
    cases h1 : pyIntHex ((s.data.dropWhile (· == '#')).take 2) with
    | none => rw [h1] at h; exact absurd h (by simp)
    | some v1 =>
      cases h2 : pyIntHex (((s.data.dropWhile (· == '#')).drop 2).take 2) with
      | none => rw [h1, h2] at h; exact absurd h (by simp)
      | some v2 =>
        cases h3 : pyIntHex ((s.data.dropWhile (· == '#')).drop 4) with
        | none => rw [h1, h2, h3] at h; exact absurd h (by simp)
        | some v3 =>
          rw [h1, h2, h3] at h
          simp only [Option.some_bind, Option.map_some'] at h
          have h' := Option.some_inj.mp h
          rw [Prod.mk.injEq, Prod.mk.injEq] at h'
          obtain ⟨rfl, rfl, rfl⟩ := h'
          exact ⟨hl, rfl, rfl, rfl⟩
  · rw [if_neg hl] at h
    exact absurd h (by simp)

/-- Every value a successful `hex_to_rgb` returns lies in `[-255, 255]`
componentwise (two hex digits at most, possibly negated by a sign). -/
lemma hex_to_rgb_range {s : String} {r g b : ℤ}
    (h : hex_to_rgb s = some (r, g, b)) :
    (-255 ≤ r ∧ r ≤ 255) ∧ (-255 ≤ g ∧ g ≤ 255) ∧ (-255 ≤ b ∧ b ≤ 255) := by
  obtain ⟨hl, h1, h2, h3⟩ := hex_to_rgb_eq_some h
  refine ⟨pyIntHex_bound ?_ h1, pyIntHex_bound ?_ h2, pyIntHex_bound ?_ h3⟩
  · rw [List.length_take, hl]; omega
  · rw [List.length_take, List.length_drop, hl]; omega
  · rw [List.length_drop, hl]

/-- The sixteen uppercase hexadecimal digit characters. -/
def hexDig (k : ℕ) : Char :=
  ['0', '1', '2', '3', '4', '5', '6', '7', '8', '9',
   'A', 'B', 'C', 'D', 'E', 'F'].getD k '0'

set_option maxRecDepth 10000 in
lemma fmt02X_byte_fin :
    ∀ m : Fin 256, fmt02X ((m : ℕ) : ℤ) =
      [hexDig ((m : ℕ) / 16), hexDig ((m : ℕ) % 16)] := by decide

lemma fmt02X_byte {m : ℕ} (hm : m < 256) :
    fmt02X (m : ℤ) = [hexDig (m / 16), hexDig (m % 16)] :=
  fmt02X_byte_fin ⟨m, hm⟩

set_option maxRecDepth 10000 in
lemma pyIntHex_hexDig_fin :
    ∀ x y : Fin 16, pyIntHex [hexDig (x : ℕ), hexDig (y : ℕ)] =
      some ((16 * (x : ℕ) + (y : ℕ) : ℕ) : ℤ) := by decide

lemma pyIntHex_hexDig {x y : ℕ} (hx : x < 16) (hy : y < 16) :
    pyIntHex [hexDig x, hexDig y] = some ((16 * x + y : ℕ) : ℤ) :=
  pyIntHex_hexDig_fin ⟨x, hx⟩ ⟨y, hy⟩

lemma hexDig_ne_hash_fin : ∀ x : Fin 16, (hexDig (x : ℕ) == '#') = false := by
  decide

lemma hexDig_ne_hash {x : ℕ} (hx : x < 16) : (hexDig x == '#') = false :=
  hexDig_ne_hash_fin ⟨x, hx⟩

/-- Round-trip at the byte level: formatting then reparsing a triple of
bytes recovers the bytes. -/
lemma hex_roundtrip_toNat (mr mg mb : ℕ) (h1 : mr < 256) (h2 : mg < 256)
    (h3 : mb < 256) :
    hex_to_rgb (rgb_to_hex ((mr : ℤ), (mg : ℤ), (mb : ℤ))) =
      some ((mr : ℤ), (mg : ℤ), (mb : ℤ)) := by
  have hr16 : mr / 16 < 16 := by omega
  have hg16 : mg / 16 < 16 := by omega
  have hb16 : mb / 16 < 16 := by omega
  have e1 : fmt02X (mr : ℤ) = [hexDig (mr / 16), hexDig (mr % 16)] := fmt02X_byte h1
  have e2 : fmt02X (mg : ℤ) = [hexDig (mg / 16), hexDig (mg % 16)] := fmt02X_byte h2
  have e3 : fmt02X (mb : ℤ) = [hexDig (mb / 16), hexDig (mb % 16)] := fmt02X_byte h3
  show hex_to_rgb (String.mk ('#' ::
    (fmt02X (mr : ℤ) ++ fmt02X (mg : ℤ) ++ fmt02X (mb : ℤ)))) = _
  rw [e1, e2, e3]
  simp only [List.cons_append, List.nil_append]
  show (let t := ('#' :: hexDig (mr / 16) :: hexDig (mr % 16) ::
      hexDig (mg / 16) :: hexDig (mg % 16) ::
      hexDig (mb / 16) :: hexDig (mb % 16) :: []).dropWhile (· == '#')
    ; if t.length = 6 then
      (pyIntHex (t.take 2)).bind fun r =>
        (pyIntHex ((t.drop 2).take 2)).bind fun g =>
          (pyIntHex (t.drop 4)).map fun b => (r, g, b)
    else none) = _
  have hdrop : ('#' :: hexDig (mr / 16) :: hexDig (mr % 16) ::
      hexDig (mg / 16) :: hexDig (mg % 16) ::
      hexDig (mb / 16) :: hexDig (mb % 16) :: []).dropWhile (· == '#') =
      hexDig (mr / 16) :: hexDig (mr % 16) ::
      hexDig (mg / 16) :: hexDig (mg % 16) ::
      hexDig (mb / 16) :: hexDig (mb % 16) :: [] := by
    rw [List.dropWhile_cons]
    simp only [show ('#' == '#') = true from rfl, if_true]
    rw [List.dropWhile_cons]
    simp only [hexDig_ne_hash hr16, Bool.false_eq_true, if_false]
  simp only [hdrop]
  split
  · show (pyIntHex [hexDig (mr / 16), hexDig (mr % 16)]).bind (fun r =>
      (pyIntHex [hexDig (mg / 16), hexDig (mg % 16)]).bind fun g =>
        (pyIntHex [hexDig (mb / 16), hexDig (mb % 16)]).map fun b =>
          (r, g, b)) = some ((mr : ℤ), (mg : ℤ), (mb : ℤ))
    rw [pyIntHex_hexDig hr16 (by omega), pyIntHex_hexDig hg16 (by omega),
      pyIntHex_hexDig hb16 (by omega)]
    simp only [Option.some_bind, Option.map_some']
    have hdm : ∀ m : ℕ, 16 * (m / 16) + m % 16 = m := fun m => by omega
    rw [hdm mr, hdm mg, hdm mb]
  · rename_i hfalse
    exact absurd rfl hfalse

/-! ### The serialization report enumerates entries in `(photo, k)` order -/

/-- The strict lexicographic `(photoId, k)` order on triples. -/
def pairLt (a b : String × ℕ × ClusterEntry) : Prop :=
  a.1 < b.1 ∨ (a.1 = b.1 ∧ a.2.1 < b.2.1)

lemma pairLt_antisymm : ∀ a b, pairLt a b → pairLt b a → a = b := by
  intro a b hab hba
  exfalso
  rcases hab with h1 | ⟨h1, h2⟩ <;> rcases hba with h3 | ⟨h3, h4⟩
  · exact absurd h3 (lt_asymm h1)
  · rw [h3] at h1; exact lt_irrefl _ h1
  · rw [h1] at h3; exact lt_irrefl _ h3
  · exact absurd h4 (lt_asymm h2)

lemma pairLe_trans : ∀ a b c : String × ℕ × ClusterEntry,
    pairLe a b = true → pairLe b c = true → pairLe a c = true := by
  intro a b c hab hbc
  simp only [pairLe, Bool.or_eq_true, decide_eq_true_eq, Bool.and_eq_true,
    beq_iff_eq] at hab hbc ⊢
  rcases hab with h1 | ⟨h1, h2⟩ <;> rcases hbc with h3 | ⟨h3, h4⟩
  · exact Or.inl (lt_trans h1 h3)
  · exact Or.inl (h3 ▸ h1)
  · exact Or.inl (h1 ▸ h3)
  · exact Or.inr ⟨h1.trans h3, le_trans h2 h4⟩

lemma pairLe_total : ∀ a b : String × ℕ × ClusterEntry,
    (pairLe a b || pairLe b a) = true := by
  intro a b
  simp only [pairLe, Bool.or_eq_true, decide_eq_true_eq, Bool.and_eq_true,
    beq_iff_eq]
  rcases lt_trichotomy a.1 b.1 with h | h | h
  · exact Or.inl (Or.inl h)
  · rcases le_total a.2.1 b.2.1 with h2 | h2
    · exact Or.inl (Or.inr ⟨h, h2⟩)
    · exact Or.inr (Or.inr ⟨h.symm, h2⟩)
  · exact Or.inr (Or.inl h)

/-- Pairwise property of a `flatMap` from per-block and cross-block facts. -/
lemma pairwise_flatMap_blocks {α β : Type} {r : β → β → Prop}
    {s : α → α → Prop} {f : α → List β} :
    ∀ {l : List α}, l.Pairwise s → (∀ a ∈ l, (f a).Pairwise r) →
      (∀ a b, s a b → ∀ x ∈ f a, ∀ y ∈ f b, r x y) →
      (l.flatMap f).Pairwise r := by
  intro l
  induction l with
  | nil => intro _ _ _; simp
  | cons a l ih =>
    intro hp hin hcross
    rw [List.flatMap_cons, List.pairwise_append]
    obtain ⟨ha, hl⟩ := List.pairwise_cons.mp hp
    refine ⟨hin a (List.mem_cons_self a l),
      ih hl (fun b hb => hin b (List.mem_cons_of_mem a hb)) hcross, ?_⟩
    intro x hx y hy
    obtain ⟨b, hb, hyb⟩ := List.mem_flatMap.mp hy
    exact hcross a b (ha b hb) x hx y hyb

lemma mem_of_lookup_eq_some {α β : Type} [BEq α] [LawfulBEq α] :
    ∀ {l : List (α × β)} {a : α} {b : β},
      List.lookup a l = some b → (a, b) ∈ l := by
  intro l
  induction l with
  | nil => intro a b h; exact absurd h (by simp [List.lookup])
  | cons p tl ih =>
    intro a b h
    obtain ⟨q, c⟩ := p
    cases hq : a == q with
    | true =>
      obtain rfl := eq_of_beq hq
      rw [lookup_cons_self] at h
      obtain rfl := Option.some_inj.mp h
      exact List.mem_cons_self _ _
    | false =>
      rw [lookup_cons_ne hq] at h
      exact List.mem_cons_of_mem _ (ih h)

lemma lookup_self_of_nodup {α β : Type} [BEq α] [LawfulBEq α] :
    ∀ {l : List (α × β)}, (l.map fun p => p.1).Nodup →
      ∀ {a : α} {b : β}, (a, b) ∈ l → List.lookup a l = some b := by
  intro l
  induction l with
  | nil => intro _ a b h; exact absurd h (by simp)
  | cons p tl ih =>
    intro hnd a b h
    obtain ⟨q, c⟩ := p
    rw [List.map_cons, List.nodup_cons] at hnd
    rcases List.mem_cons.mp h with heq | hmem
    · obtain ⟨rfl, rfl⟩ := Prod.mk.injEq .. ▸ heq
      exact lookup_cons_self a b tl
    · have hne : a ≠ q := by
        rintro rfl
        exact hnd.1 (List.mem_map.mpr ⟨(a, b), hmem, rfl⟩)
      rw [lookup_cons_ne (beq_eq_false_iff_ne.mpr hne)]
      exact ih hnd.2 hmem

lemma crTriples_pairs_nodup {cl : ClusterResult} (wf : CRWF cl) :
    ((crTriples cl).map fun t => (t.1, t.2.1)).Nodup := by
  have heq : ((crTriples cl).map fun t => (t.1, t.2.1)) =
      cl.flatMap fun pp => pp.2.map fun ke => (pp.1, ke.1) := by
    simp only [crTriples, List.map_flatMap, List.map_map]
    rfl
  rw [heq]
  refine pairwise_flatMap_blocks (s := fun pp qq => pp.1 ≠ qq.1) ?_ ?_ ?_
  · exact List.pairwise_map.mp wf.1
  · intro pp hpp
    rw [List.pairwise_map]
    refine (List.pairwise_map.mp (wf.2 pp hpp)).imp ?_
    intro ke1 ke2 hne heq2
    simp only [Prod.mk.injEq] at heq2
    exact hne heq2.2
  · intro pp qq hs x hx y hy
    obtain ⟨ke1, _, rfl⟩ := List.mem_map.mp hx
    obtain ⟨ke2, _, rfl⟩ := List.mem_map.mp hy
    intro heq2
    simp only [Prod.mk.injEq] at heq2
    exact hs heq2.1

/-- The nested iteration of `save_clusters` as a triple enumeration. -/
def nestedTriples (cl : ClusterResult) : List (String × ℕ × ClusterEntry) :=
  (sortedStrings (cl.map fun p => p.1)).flatMap fun photo =>
    (sortedNats (((List.lookup photo cl).getD []).map fun p => p.1)).map fun k =>
      (photo, k, (List.lookup k ((List.lookup photo cl).getD [])).getD [])

lemma linesOf_eq_map_nestedTriples (cl : ClusterResult) :
    linesOf cl = (nestedTriples cl).map fun t =>
      formatLine t.1 (t.2.2.map fun p => p.2) := by
  simp only [linesOf, nestedTriples, List.map_flatMap, List.map_map]
  rfl

lemma nestedTriples_perm {cl : ClusterResult} (wf : CRWF cl) :
    (nestedTriples cl).Perm (crTriples cl) := by
  have h1 : (nestedTriples cl).Perm
      ((cl.map fun p => p.1).flatMap fun photo =>
        let inner := (List.lookup photo cl).getD []
        (sortedNats (inner.map fun p => p.1)).map fun k =>
          (photo, k, (List.lookup k inner).getD [])) :=
    List.Perm.flatMap_right _ (List.mergeSort_perm _ _)
  refine h1.trans ?_
  rw [List.flatMap_map]
  refine (List.Perm.flatMap_left cl ?_)
  intro pp hpp
  have hlk : List.lookup pp.1 cl = some pp.2 := by
    have : (pp.1, pp.2) ∈ cl := by simpa using hpp
    exact lookup_self_of_nodup wf.1 this
  show ((sortedNats (((List.lookup pp.1 cl).getD []).map fun p => p.1)).map fun k =>
      (pp.1, k, (List.lookup k ((List.lookup pp.1 cl).getD [])).getD [])).Perm
    (pp.2.map fun ke => (pp.1, ke.1, ke.2))
  rw [hlk]
  simp only [Option.getD_some]
  have h2 : ((sortedNats (pp.2.map fun p => p.1)).map fun k =>
      (pp.1, k, (List.lookup k pp.2).getD [])).Perm
      ((pp.2.map fun p => p.1).map fun k =>
        (pp.1, k, (List.lookup k pp.2).getD [])) :=
    List.Perm.map _ (List.mergeSort_perm _ _)
  refine h2.trans ?_
  rw [List.map_map]
  refine List.Perm.of_eq (List.map_eq_map_iff.mpr ?_)
  intro ke hke
  have : List.lookup ke.1 pp.2 = some ke.2 :=
    lookup_self_of_nodup (wf.2 pp hpp) (by simpa using hke)
  simp [Function.comp, this]

lemma nestedTriples_sorted {cl : ClusterResult} (wf : CRWF cl) :
    (nestedTriples cl).Pairwise pairLt := by
  unfold nestedTriples
  refine pairwise_flatMap_blocks (s := fun p1 p2 : String => p1 < p2) ?_ ?_ ?_
  · have hle : List.Sorted (fun a b : String => a ≤ b)
        (sortedStrings (cl.map fun p => p.1)) := List.sorted_mergeSort' _
    have hnd : (sortedStrings (cl.map fun p => p.1)).Nodup :=
      ((List.mergeSort_perm _ _).symm).nodup wf.1
    exact (hle.and hnd).imp fun h => lt_of_le_of_ne h.1 h.2
  · intro photo hmem
    have hmem' : photo ∈ cl.map fun p => p.1 :=
      ((List.mergeSort_perm _ _).mem_iff).mp hmem
    obtain ⟨pp, hpp, rfl⟩ := List.mem_map.mp hmem'
    have hlk : List.lookup pp.1 cl = some pp.2 :=
      lookup_self_of_nodup wf.1 (by simpa using hpp)
    rw [hlk]
    simp only [Option.getD_some]
    rw [List.pairwise_map]
    have hle : List.Sorted (fun a b : ℕ => a ≤ b)
        (sortedNats (pp.2.map fun p => p.1)) := List.sorted_mergeSort' _
    have hnd : (sortedNats (pp.2.map fun p => p.1)).Nodup :=
      ((List.mergeSort_perm _ _).symm).nodup (wf.2 pp hpp)
    refine ((hle.and hnd).imp fun h => lt_of_le_of_ne h.1 h.2).imp ?_
    intro k1 k2 hk
    exact Or.inr ⟨rfl, hk⟩
  · intro p1 p2 hs x hx y hy
    obtain ⟨k1, -, rfl⟩ := List.mem_map.mp hx
    obtain ⟨k2, -, rfl⟩ := List.mem_map.mp hy
    exact Or.inl hs

lemma mergeSort_triples_sorted {cl : ClusterResult} (wf : CRWF cl) :
    ((crTriples cl).mergeSort pairLe).Pairwise pairLt := by
  have h1 : ((crTriples cl).mergeSort pairLe).Pairwise
      (fun a b => pairLe a b = true) :=
    List.sorted_mergeSort pairLe_trans pairLe_total (crTriples cl)
  have h2 : (((crTriples cl).mergeSort pairLe).map fun t => (t.1, t.2.1)).Nodup := by
    have hp := (List.mergeSort_perm (crTriples cl) pairLe).map fun t => (t.1, t.2.1)
    exact hp.symm.nodup (crTriples_pairs_nodup wf)
  have h3 : ((crTriples cl).mergeSort pairLe).Pairwise
      (fun a b => (a.1, a.2.1) ≠ (b.1, b.2.1)) := List.pairwise_map.mp h2
  refine (h1.and h3).imp ?_
  rintro a b ⟨hle, hne⟩
  simp only [pairLe, Bool.or_eq_true, decide_eq_true_eq, Bool.and_eq_true,
    beq_iff_eq] at hle
  rcases hle with h | ⟨h4, h5⟩
  · exact Or.inl h
  · refine Or.inr ⟨h4, lt_of_le_of_ne h5 ?_⟩
    intro hk
    exact hne (by rw [h4, hk])

/-- The nested sorted iteration of `save_clusters` enumerates exactly the
flattened `(photo, k, entry)` triples in lexicographic `(photo, k)`
order. -/
lemma serializeClusters_eq_spec {cl : ClusterResult} (wf : CRWF cl) :
    serializeClusters cl = String.join (specReportLines cl) := by
  unfold serializeClusters specReportLines
  rw [linesOf_eq_map_nestedTriples]
  haveI : IsAntisymm (String × ℕ × ClusterEntry) pairLt := ⟨pairLt_antisymm⟩
  have key : nestedTriples cl = (crTriples cl).mergeSort pairLe :=
    List.eq_of_perm_of_sorted
      ((nestedTriples_perm wf).trans (List.mergeSort_perm (crTriples cl) pairLe).symm)
      (nestedTriples_sorted wf)
      (mergeSort_triples_sorted wf)
  rw [key]

/-! ### Evaluating the serialization on concrete results -/

lemma mergeSort_single {α : Type} (le : α → α → Bool) (a : α) :
    List.mergeSort [a] le = [a] :=
  List.perm_singleton.mp (List.mergeSort_perm [a] le)

lemma sortedStrings_single (a : String) : sortedStrings [a] = [a] :=
  mergeSort_single _ a

lemma sortedNats_single (n : ℕ) : sortedNats [n] = [n] :=
  mergeSort_single _ n

lemma sortedStrings_pair {a b : String} (h : a ≤ b) :
    sortedStrings [a, b] = [a, b] :=
  List.eq_of_perm_of_sorted (List.mergeSort_perm _ _)
    (List.sorted_mergeSort' _)
    (List.sorted_cons.mpr
      ⟨fun x hx => (List.mem_singleton.mp hx).symm ▸ h, by simp⟩)

lemma join_single (x : String) : String.join [x] = x := by
  refine String.ext ?_
  rw [show String.join [x] = "" ++ x from rfl, String.data_append]
  rfl

lemma join_pair_data (x y : String) :
    (String.join [x, y]).data = x.data ++ y.data := by
  rw [show String.join [x, y] = "" ++ x ++ y from rfl, String.data_append,
    String.data_append]
  rfl

lemma formatLine_data (p : String) (hx : List String) :
    (formatLine p hx).data =
      p.data ++ "  ".data ++ (String.intercalate ", " hx).data ++ "\n".data := by
  simp [formatLine, String.data_append]

noncomputable def lineA : String :=
  formatLine "a" [lab_to_hex ((0 : ℝ), (0 : ℝ), (0 : ℝ))]

noncomputable def lineB : String :=
  formatLine "b" [lab_to_hex ((0 : ℝ), (0 : ℝ), (0 : ℝ))]

noncomputable def ccAB : ClusterResult := [("a", [(1, entryA)]), ("b", [(1, entryA)])]

lemma cluster_colors_repoAB : cluster_colors kmStub repoAB = ccAB := rfl

lemma linesOf_ccAB : linesOf ccAB = [lineA, lineB] := by
  unfold linesOf ccAB
  rw [show ([("a", [(1, entryA)]), ("b", [(1, entryA)])].map fun p => p.1) =
    ["a", "b"] from rfl]
  rw [sortedStrings_pair (show ("a" : String) ≤ "b" by
    rw [String.le_iff_toList_le]; decide)]
  rw [List.flatMap_cons, List.flatMap_cons, List.flatMap_nil]
  rw [show ((List.lookup "a" [("a", [(1, entryA)]), ("b", [(1, entryA)])]).getD []) =
    [(1, entryA)] from rfl]
  rw [show ((List.lookup "b" [("a", [(1, entryA)]), ("b", [(1, entryA)])]).getD []) =
    [(1, entryA)] from rfl]
  rw [show ([(1, entryA)].map fun p => p.1) = [1] from rfl]
  rw [sortedNats_single]
  rfl

lemma lineA_data_ne_nil : lineA.data ≠ [] := by
  rw [show lineA = formatLine "a" [lab_to_hex ((0 : ℝ), (0 : ℝ), (0 : ℝ))] from rfl,
    formatLine_data]
  rw [show ("a" : String).data = ['a'] from rfl]
  simp

lemma lineB_data_ne_nil : lineB.data ≠ [] := by
  rw [show lineB = formatLine "b" [lab_to_hex ((0 : ℝ), (0 : ℝ), (0 : ℝ))] from rfl,
    formatLine_data]
  rw [show ("b" : String).data = ['b'] from rfl]
  simp

lemma c5_example_eval :
    serializeClusters
      [("a.jpg", [(1, [(((50 : ℝ), (0 : ℝ), (0 : ℝ)), "#808080")])])] =
      "a.jpg  #808080\n" := by
  unfold serializeClusters linesOf
  rw [show ([("a.jpg", [(1, [(((50 : ℝ), (0 : ℝ), (0 : ℝ)), "#808080")])])].map
    fun p => p.1) = ["a.jpg"] from rfl, sortedStrings_single]
  rw [List.flatMap_cons, List.flatMap_nil]
  rw [show ((List.lookup "a.jpg"
    [("a.jpg", [(1, [(((50 : ℝ), (0 : ℝ), (0 : ℝ)), "#808080")])])]).getD []) =
    [(1, [(((50 : ℝ), (0 : ℝ), (0 : ℝ)), "#808080")])] from rfl]
  rw [show ([(1, [(((50 : ℝ), (0 : ℝ), (0 : ℝ)), "#808080")])].map fun p => p.1) =
    [1] from rfl, sortedNats_single]
  rfl

/-! ## The claims -/

/-- Claim C1: for every repository and photoId, a `(photoId, k)` entry of
`cluster_colors` exists only when `k` is one of `1..5` and at least `k`
L*a*b* points were pooled for that photo at that `k` (from records whose
colour list has exactly `k` entries, across all persons); and every entry
present is a sequence of exactly `k` `(labCentroid, hex)` pairs whose hex
is `lab_to_hex` of its centroid.  The abstract k-means is constrained by
the `KMContract` guarantees of `sklearn.cluster.KMeans`. -/
theorem c1_cluster_entry_invariant (km : KMeansFn) (variants : Repo)
    (hkm : KMContract km) (photo : String) (k : ℕ) (entry : ClusterEntry)
    (h : crLookup (cluster_colors km variants) photo k = some entry) :
    1 ≤ k ∧ k ≤ 5 ∧
      (∃ persons, List.lookup photo variants = some persons ∧
        k ≤ (poolPoints persons k).length) ∧
      entry.length = k ∧ ∀ pr ∈ entry, pr.2 = lab_to_hex pr.1 := by
  obtain ⟨persons, hp, h1, h5, hlen, hlt, hall, hshape⟩ := cluster_entry_spec hkm h
  refine ⟨h1, h5, ⟨persons, hp, hlen⟩, ?_, ?_⟩
  · rw [hshape, List.length_map, firstSeen_length hlt hall]
  · intro pr hpr
    rw [hshape] at hpr
    obtain ⟨lbl, -, rfl⟩ := List.mem_map.mp hpr
    rfl

/-- Witness for C1 on the one-photo, one-point repository `repoA`. -/
theorem c1_witness :
    crLookup (cluster_colors kmStub repoA) "a" 1 = some entryA ∧
      (1 ≤ 1 ∧ 1 ≤ 5 ∧
        (∃ persons, List.lookup "a" repoA = some persons ∧
          1 ≤ (poolPoints persons 1).length) ∧
        entryA.length = 1 ∧ ∀ pr ∈ entryA, pr.2 = lab_to_hex pr.1) :=
  ⟨rfl, c1_cluster_entry_invariant kmStub repoA kmStub_contract "a" 1 entryA rfl⟩

/-- Claim C2: each `(photoId, k)` entry of `cluster_colors` lists the
centroids in first-occurrence order — the entry equals the map, over the
cluster indices in the order each is first seen in the label scan, of the
corresponding `(centroid, hex)` pair, so each centroid's output position
is the rank at which its cluster index first appears. -/
theorem c2_first_occurrence_order (km : KMeansFn) (variants : Repo)
    (hkm : KMContract km) (photo : String) (k : ℕ) (entry : ClusterEntry)
    (h : crLookup (cluster_colors km variants) photo k = some entry) :
    ∃ persons, List.lookup photo variants = some persons ∧
      entry = (firstSeen (km k (poolPoints persons k)).2).map fun lbl =>
        ((km k (poolPoints persons k)).1.getD lbl ((0 : ℝ), (0 : ℝ), (0 : ℝ)),
          lab_to_hex ((km k (poolPoints persons k)).1.getD lbl
            ((0 : ℝ), (0 : ℝ), (0 : ℝ)))) := by
  obtain ⟨persons, hp, -, -, -, -, -, hshape⟩ := cluster_entry_spec hkm h
  exact ⟨persons, hp, hshape⟩

/-- Witness for C2 on `repoA`. -/
theorem c2_witness :
    crLookup (cluster_colors kmStub repoA) "a" 1 = some entryA ∧
      ∃ persons, List.lookup "a" repoA = some persons ∧
        entryA = (firstSeen (kmStub 1 (poolPoints persons 1)).2).map fun lbl =>
          ((kmStub 1 (poolPoints persons 1)).1.getD lbl ((0 : ℝ), (0 : ℝ), (0 : ℝ)),
            lab_to_hex ((kmStub 1 (poolPoints persons 1)).1.getD lbl
              ((0 : ℝ), (0 : ℝ), (0 : ℝ)))) :=
  ⟨rfl, c2_first_occurrence_order kmStub repoA kmStub_contract "a" 1 entryA rfl⟩

/-- Claim C3 (counterexample): the claim says `hex_to_rgb` fails exactly
when the string, after one optional leading `'#'`, is not six hexadecimal
digits, and that successes lie in `[0,255]^3`.  The input `"-1-2-3"` is
not six hex digits in that sense, yet the code succeeds — `lstrip('#')`
plus Python `int(_, 16)` accept it — returning the out-of-range triple
`(-1, -2, -3)`. -/
theorem c3_counterexample :
    hex_to_rgb "-1-2-3" = some (-1, -2, -3) ∧ ¬ specSixHexDigits "-1-2-3" := by
  constructor
  · decide
  · decide

/-- Claim C3 (amended): `hex_to_rgb` fails exactly when, after stripping
every leading `'#'`, the string is not six characters with each
two-character slice a valid Python base-16 integer literal; on success it
returns the three parsed slice values, each in `[-255, 255]`; and
`"#FFAACC"` and `"ffaacc"` both succeed with the same value. -/
theorem c3_hex_format (s : String) :
    (hex_to_rgb s = none ↔ ¬ hexFormatOk s) ∧
      (∀ r g b : ℤ, hex_to_rgb s = some (r, g, b) →
        pyIntHex ((s.data.dropWhile (· == '#')).take 2) = some r ∧
        pyIntHex (((s.data.dropWhile (· == '#')).drop 2).take 2) = some g ∧
        pyIntHex ((s.data.dropWhile (· == '#')).drop 4) = some b ∧
        (-255 ≤ r ∧ r ≤ 255) ∧ (-255 ≤ g ∧ g ≤ 255) ∧ (-255 ≤ b ∧ b ≤ 255)) ∧
      hex_to_rgb "#FFAACC" = some (255, 170, 204) ∧
      hex_to_rgb "ffaacc" = some (255, 170, 204) := by
  refine ⟨hex_to_rgb_eq_none_iff s, ?_, by decide, by decide⟩
  intro r g b h
  obtain ⟨-, h1, h2, h3⟩ := hex_to_rgb_eq_some h
  obtain ⟨hr, hg, hb⟩ := hex_to_rgb_range h
  exact ⟨h1, h2, h3, hr, hg, hb⟩

/-- Witness for C3 at `"AABBCC"`. -/
theorem c3_hex_format_witness :
    hex_to_rgb "AABBCC" = some (170, 187, 204) ∧
      (pyIntHex (("AABBCC".data.dropWhile (· == '#')).take 2) = some 170 ∧
        pyIntHex ((("AABBCC".data.dropWhile (· == '#')).drop 2).take 2) = some 187 ∧
        pyIntHex (("AABBCC".data.dropWhile (· == '#')).drop 4) = some 204 ∧
        (-255 ≤ (170 : ℤ) ∧ (170 : ℤ) ≤ 255) ∧
        (-255 ≤ (187 : ℤ) ∧ (187 : ℤ) ≤ 255) ∧
        (-255 ≤ (204 : ℤ) ∧ (204 : ℤ) ≤ 255)) :=
  ⟨by decide, (c3_hex_format "AABBCC").2.1 170 187 204 (by decide)⟩

/-- Claim C4 (counterexample): the claim asserts some L*a*b* triple
outside the sRGB gamut is mapped by `lab_to_rgb` to a channel outside
`[0, 255]`.  No such triple exists: `skimage`'s `xyz2rgb` ends with
`np.clip(arr, 0, 1)`, so after `round(c * 255)` every channel is a byte. -/
theorem c4_counterexample :
    ¬ ∃ lab : Lab, lab ∉ sRGBGamut ∧
      ((lab_to_rgb lab).1 < 0 ∨ 255 < (lab_to_rgb lab).1 ∨
        (lab_to_rgb lab).2.1 < 0 ∨ 255 < (lab_to_rgb lab).2.1 ∨
        (lab_to_rgb lab).2.2 < 0 ∨ 255 < (lab_to_rgb lab).2.2) := by
  rintro ⟨lab, -, hout⟩
  obtain ⟨⟨h1, h2⟩, ⟨h3, h4⟩, h5, h6⟩ := lab_to_rgb_mem lab
  rcases hout with h | h | h | h | h | h <;> omega

/-- Claim C4 (amended): `lab_to_rgb` clamps — for every L*a*b* triple,
all three returned channels lie in `[0, 255]`, because `skimage.color.lab2rgb`
clips each real channel into `[0, 1]` before the `* 255` and rounding. -/
theorem c4_lab_to_rgb_clamped (lab : Lab) :
    (0 ≤ (lab_to_rgb lab).1 ∧ (lab_to_rgb lab).1 ≤ 255) ∧
      (0 ≤ (lab_to_rgb lab).2.1 ∧ (lab_to_rgb lab).2.1 ≤ 255) ∧
      (0 ≤ (lab_to_rgb lab).2.2 ∧ (lab_to_rgb lab).2.2 ≤ 255) :=
  lab_to_rgb_mem lab

/-- Claim C5: `save_clusters` writes one line per `(photoId, k)` entry,
photoIds in lexicographic order and `k` ascending within a photo, each
line being the photoId, two spaces, and the comma-space joined hex list
with a trailing newline; and the singleton example produces exactly
`"a.jpg  #808080\n"`. -/
theorem c5_save_format :
    (∀ cl : ClusterResult, CRWF cl →
      serializeClusters cl = String.join (specReportLines cl)) ∧
      serializeClusters
        [("a.jpg", [(1, [(((50 : ℝ), (0 : ℝ), (0 : ℝ)), "#808080")])])] =
        "a.jpg  #808080\n" :=
  ⟨fun _ wf => serializeClusters_eq_spec wf, c5_example_eval⟩

/-- Witness for C5 on the singleton example result. -/
theorem c5_save_format_witness :
    CRWF [("a.jpg", [(1, [(((50 : ℝ), (0 : ℝ), (0 : ℝ)), "#808080")])])] ∧
      serializeClusters
        [("a.jpg", [(1, [(((50 : ℝ), (0 : ℝ), (0 : ℝ)), "#808080")])])] =
        String.join (specReportLines
          [("a.jpg", [(1, [(((50 : ℝ), (0 : ℝ), (0 : ℝ)), "#808080")])])]) := by
  have wf : CRWF [("a.jpg", [(1, [(((50 : ℝ), (0 : ℝ), (0 : ℝ)), "#808080")])])] := by
    constructor
    · simp
    · intro pp hpp
      rw [List.mem_singleton.mp hpp]
      simp
  exact ⟨wf, c5_save_format.1 _ wf⟩

/-- Claim C6 (the code violates the stated atomicity): on the two-photo
repository `repoAB`, an `IOError` striking after the first of the two
line writes leaves exactly the first line in the file — a nonempty,
incomplete output, contradicting "written fully or not at all".
`save_clusters_upTo` models the content after `n` completed line writes
of the `with open(output_file, 'w')` loop. -/
theorem c6_partial_write :
    save_clusters_upTo kmStub repoAB 1 = lineA ∧
      save_clusters_upTo kmStub repoAB 1 ≠ "" ∧
      save_clusters_upTo kmStub repoAB 1 ≠ save_clusters kmStub repoAB := by
  have h1 : save_clusters_upTo kmStub repoAB 1 = String.join [lineA] := by
    unfold save_clusters_upTo
    rw [cluster_colors_repoAB, linesOf_ccAB]
    rfl
  have h1' : save_clusters_upTo kmStub repoAB 1 = lineA :=
    h1.trans (join_single lineA)
  have h2 : save_clusters kmStub repoAB = String.join [lineA, lineB] := by
    unfold save_clusters serializeClusters
    rw [cluster_colors_repoAB, linesOf_ccAB]
  refine ⟨h1', ?_, ?_⟩
  · rw [h1']
    intro hcontra
    exact lineA_data_ne_nil (congrArg String.data hcontra)
  · rw [h1', h2]
    intro hcontra
    have hd := congrArg String.data hcontra
    rw [join_pair_data] at hd
    have hlen := congrArg List.length hd
    rw [List.length_append] at hlen
    have hz : lineB.data.length = 0 := by omega
    exact lineB_data_ne_nil (List.length_eq_zero.mp hz)

/-- Claim C7: `cluster_colors` is deterministic — the seeded k-means
(`random_state=0`) is a fixed function `km` of its inputs, so two calls on
an unchanged repository give identical results, including the serialized
report. -/
theorem c7_determinism (km : KMeansFn) (v1 v2 : Repo) (h : v1 = v2) :
    cluster_colors km v1 = cluster_colors km v2 ∧
      save_clusters km v1 = save_clusters km v2 := by
  subst h
  exact ⟨rfl, rfl⟩

/-- Witness for C7 on `repoA`. -/
theorem c7_determinism_witness :
    cluster_colors kmStub repoA = cluster_colors kmStub repoA ∧
      save_clusters kmStub repoA = save_clusters kmStub repoA :=
  c7_determinism kmStub repoA repoA rfl

/-- Claim C8: hex round-trip — for every integer triple in `[0,255]^3`,
parsing the formatted `#RRGGBB` string returns the original triple. -/
theorem c8_hex_roundtrip (r g b : ℤ)
    (h : 0 ≤ r ∧ r ≤ 255 ∧ 0 ≤ g ∧ g ≤ 255 ∧ 0 ≤ b ∧ b ≤ 255) :
    hex_to_rgb (rgb_to_hex (r, g, b)) = some (r, g, b) := by
  obtain ⟨h1, h2, h3, h4, h5, h6⟩ := h
  rw [show r = ((r.toNat : ℕ) : ℤ) from by omega,
    show g = ((g.toNat : ℕ) : ℤ) from by omega,
    show b = ((b.toNat : ℕ) : ℤ) from by omega]
  exact hex_roundtrip_toNat r.toNat g.toNat b.toNat
    (by omega) (by omega) (by omega)

/-- Witness for C8 at `(255, 170, 204)`. -/
theorem c8_hex_roundtrip_witness :
    (0 ≤ (255 : ℤ) ∧ (255 : ℤ) ≤ 255 ∧ 0 ≤ (170 : ℤ) ∧ (170 : ℤ) ≤ 255 ∧
      0 ≤ (204 : ℤ) ∧ (204 : ℤ) ≤ 255) ∧
      hex_to_rgb (rgb_to_hex (255, 170, 204)) = some (255, 170, 204) :=
  ⟨by norm_num, c8_hex_roundtrip 255 170 204 (by norm_num)⟩

/-- Claim C9: when at least `k` points are pooled for the chosen photo,
`on_recluster` stores the freshly clustered list under the single
`(photo, k)` entry and leaves every other `(photo', k')` entry of the held
`ClusterResult` unchanged. -/
theorem c9_recluster_frame (cl : ClusterResult) (variants : Repo)
    (km : KMeansFn) (photo : String) (k : ℕ)
    (hpts : k ≤ (poolPoints ((List.lookup photo variants).getD []) k).length) :
    (∀ photo' k', photo' ≠ photo ∨ k' ≠ k →
      crLookup (on_recluster cl variants km photo k) photo' k' =
        crLookup cl photo' k') ∧
      ∃ e, clusterEntry km ((List.lookup photo variants).getD []) k = some e ∧
        crLookup (on_recluster cl variants km photo k) photo k = some e := by
  obtain ⟨e, hce, heq⟩ := on_recluster_eq hpts
  constructor
  · intro photo' k' hne
    rw [heq]
    unfold crLookup
    rcases hne with hne | hne
    · rw [lookup_setdefaultSet_other cl photo photo' k e hne]
    · by_cases hp : photo' = photo
      · subst hp
        rw [lookup_setdefaultSet_same]
        simp only [Option.some_bind]
        rw [lookup_dictSet_other k k' e hne ((List.lookup photo' cl).getD [])]
        cases hl : List.lookup photo' cl
        · simp [List.lookup]
        · simp
      · rw [lookup_setdefaultSet_other cl photo photo' k e hp]
  · refine ⟨e, hce, ?_⟩
    rw [heq]
    unfold crLookup
    rw [lookup_setdefaultSet_same]
    simp only [Option.some_bind]
    exact lookup_dictSet_same k e _

/-- Witness for C9: reclustering photo `"b"` leaves photo `"a"`'s entry
untouched. -/
theorem c9_recluster_frame_witness :
    1 ≤ (poolPoints ((List.lookup "b" repoAB).getD []) 1).length ∧
      ("a" ≠ "b" ∨ (1 : ℕ) ≠ 1) ∧
      crLookup (on_recluster [("a", [(1, entryA)])] repoAB kmStub "b" 1) "a" 1 =
        crLookup [("a", [(1, entryA)])] "a" 1 :=
  ⟨by decide, Or.inl (by decide),
    (c9_recluster_frame [("a", [(1, entryA)])] repoAB kmStub "b" 1
      (by decide)).1 "a" 1 (Or.inl (by decide))⟩

/-- Claim C10: `cluster_colors` keys mirror the repository exactly
(`result[photo] = \x7b\x7d` runs for every photo), and a photo whose pools are
all too small still appears, mapped to the empty inner mapping. -/
theorem c10_all_photos_present (km : KMeansFn) (variants : Repo) :
    ((cluster_colors km variants).map fun p => p.1) =
      (variants.map fun p => p.1) ∧
      ∀ photo persons, (photo, persons) ∈ variants →
        (∀ k, 1 ≤ k → k ≤ 5 → (poolPoints persons k).length < k) →
        (photo, ([] : List (ℕ × ClusterEntry))) ∈ cluster_colors km variants := by
  constructor
  · simp [cluster_colors]
  · intro photo persons hmem hpool
    have hnil : ((List.range' 1 5).filterMap fun k =>
        (clusterEntry km persons k).map fun e => (k, e)) = [] := by
      rw [List.filterMap_eq_nil_iff]
      intro k hk
      have hb := List.mem_range'_1.mp hk
      have hlt := hpool k (by omega) (by omega)
      simp [clusterEntry, hlt]
    refine List.mem_map.mpr ⟨(photo, persons), hmem, ?_⟩
    simp [hnil]

/-- Witness for C10 on a repository whose only photo has no records. -/
theorem c10_all_photos_present_witness :
    (("e", ([] : PersonsMap)) ∈ repoNoData) ∧
      ("e", ([] : List (ℕ × ClusterEntry))) ∈ cluster_colors kmStub repoNoData :=
  ⟨List.mem_singleton.mpr rfl,
    (c10_all_photos_present kmStub repoNoData).2 "e" []
      (List.mem_singleton.mpr rfl) (fun _ h1 _ => h1)⟩
